import Mathlib

/- Shallow embedding of the bloom filter library (src/src/lib.rs,
   src/src/dynamic.rs, src/src/age.rs, src/src/queue.rs).

   Modelling conventions:
   * Machine integers (u64, u128, usize) are modelled as Nat, with explicit
     reduction modulo 2^64 (resp. 2^128) exactly where the source performs
     wrapping arithmetic (wrapping_add, wrapping_mul, as-casts).
   * The external 128-bit hash function (fasthash crate) is a parameter
     `spooky : α → Nat` of every operation; the source calls it through
     `BloomFilter::_spooky_hash`, which is pure and deterministic.
   * f64 values and the transcendental parameter mathematics are modelled
     over ℝ, with the roundings (`ceil`, `floor`, `round`, as-casts) made
     explicit at the points where the source applies them.
   * `std::time::Instant` is modelled as a logical clock value of type Nat
     passed explicitly to the operations that call `Instant::now()`.
   * Fallible operations (a Rust assert/panic) return Option where a claim
     is about the failure behaviour (`DynamicBloom::extend`). -/

namespace Bloom

/-- Modulus of u64 arithmetic. -/
def U64 : Nat := 2 ^ 64

/-- Modulus of u128 arithmetic. -/
def U128 : Nat := 2 ^ 128

/-- Low 64-bit half of a u128 value (source: `h as u64`). -/
def lo64 (h : Nat) : Nat := h % U64

/-- High 64-bit half of a u128 value (source: `(h >> 64) as u64`). -/
def hi64 (h : Nat) : Nat := h / U64 % U64

/-- Source src/src/lib.rs:11, `const HASH_PRIME: u64 = 0xffffffffffffffc5;`
(commented there as the highest prime that fits into u64). -/
def HASH_PRIME : Nat := 0xffffffffffffffc5

/-- Source src/src/lib.rs:141-161, `BloomFilter::compute_hashes`.
Both 128-bit base hashes `h1` and `h2` are computed by calling
`BloomFilter::_spooky_hash` on the item (lines 144 and 148); the murmur3
hasher `_mmr3_hash` defined at lines 122-127 is never called.  The loop for
`i in 4..self.k` executes `result.insert(i, result[1].wrapping_add(
(result[3].wrapping_mul(i as u64)) % HASH_PRIME))`. -/
def compute_hashes {α : Type} (spooky : α → Nat) (k : Nat) (item : α) : List Nat :=
  let h1 := spooky item % U128
  let h2 := spooky item % U128
  let base := [lo64 h1, hi64 h1, lo64 h2, hi64 h2]
  ((List.range k).drop 4).foldl
    (fun r i => r.insertIdx i ((r.getD 1 0 + r.getD 3 0 * i % U64 % HASH_PRIME) % U64)) base

/-- Value inserted by the `4..k` loop of `compute_hashes` for pass `i`,
as a function of the two 128-bit base hashes: all arithmetic is u64
(wrapping), i.e. modulo 2^64. -/
def extra_hash (h1 h2 i : Nat) : Nat :=
  (hi64 h1 + hi64 h2 * i % U64 % HASH_PRIME) % U64

/-- Fold in `BloomFilter::add`: set every listed bit index to true. -/
def setBits (a : List Bool) (ps : List Nat) : List Bool :=
  ps.foldl (fun arr p => arr.set p true) a

/-- Source src/src/lib.rs:13-26, `struct BloomFilter`.  The `fp` field is the
configured f64 false-positive rate, modelled as a real number. -/
structure BloomFilter where
  array : List Bool
  size : Nat
  k : Nat
  capacity : Nat
  stored_items : Nat
  fp : ℝ

instance : Inhabited BloomFilter :=
  ⟨{ array := [], size := 0, k := 0, capacity := 0, stored_items := 0, fp := 0 }⟩

/-- Source src/src/lib.rs:78-80, `BloomFilter::bits` returns `array.len()`. -/
def BloomFilter.bits (f : BloomFilter) : Nat := f.array.length

/-- Modelled from the spec: `BloomFilter::stored()` is called by
`DynamicBloom::should_resize` (src/src/dynamic.rs:40) but its definition is
absent from src/src/lib.rs (only this caller is in src/).  Per spec section
4.4 the saturation check compares the active partition's stored count with
its capacity, so `stored()` returns the `stored_items` counter. -/
def BloomFilter.stored (f : BloomFilter) : Nat := f.stored_items

/-- Source src/src/lib.rs:172-179, `BloomFilter::add`: derive the hash list,
set bit `hashes[idx] % self.bits()` for `idx in 0..self.k`, then increment
`stored_items`. -/
def BloomFilter.add {α : Type} (spooky : α → Nat) (f : BloomFilter) (item : α) :
    BloomFilter :=
  let hashes := compute_hashes spooky f.k item
  { f with
    array := (List.range f.k).foldl
      (fun arr idx => arr.set (hashes.getD idx 0 % arr.length) true) f.array
    stored_items := f.stored_items + 1 }

/-- Source src/src/lib.rs:191-201, `BloomFilter::get`: starts from
`result = true` and clears it whenever bit `hashes[idx] % self.bits()` is
unset. -/
def BloomFilter.get {α : Type} (spooky : α → Nat) (f : BloomFilter) (item : α) :
    Bool :=
  let hashes := compute_hashes spooky f.k item
  (List.range f.k).foldl
    (fun result idx =>
      if f.array.getD (hashes.getD idx 0 % f.array.length) false = false then false
      else result) true

/-- Source src/src/lib.rs:83-90, `calculate_size_from_fp_capacity`:
`bits = -(expected * fp.ln() / (ln2 * ln2))`, then
`bytes = ((bits.ceil()) / 8.0).ceil()` cast to usize. -/
noncomputable def calculate_size_from_fp_capacity (fp : ℝ) (expected : Nat) : Nat :=
  let bits : ℝ := -((expected : ℝ) * Real.log fp / (Real.log 2 * Real.log 2))
  (⌈(⌈bits⌉ : ℝ) / 8⌉).toNat

/-- Source src/src/lib.rs:93-100, `calculate_fp_from_capacity_size`:
`fp = E.powf(-(bits / capacity) * ln2^2)` with `bits = bytes * 8`. -/
noncomputable def calculate_fp_from_capacity_size (bytes : Nat) (capacity : Nat) : ℝ :=
  let bits : ℝ := (bytes : ℝ) * 8
  Real.exp (-(bits / (capacity : ℝ)) * Real.log 2 ^ 2)

/-- Source src/src/lib.rs:103-110, `calculate_capacity_from_fp_size`:
`capacity = -(bits / fp.ln() * (ln2 * ln2))` truncated by the `as u64` cast
(which floors nonnegative values and saturates negative ones to 0). -/
noncomputable def calculate_capacity_from_fp_size (fp : ℝ) (bytes : Nat) : Nat :=
  let bits : ℝ := (bytes : ℝ) * 8
  (⌊-(bits / Real.log fp * (Real.log 2 * Real.log 2))⌋).toNat

/-- Source src/src/lib.rs:113-120, `calculate_k`:
`k = (ln2 * bits / capacity).round()` cast to u32. -/
noncomputable def calculate_k (bytes : Nat) (capacity : Nat) : Nat :=
  let bits : ℝ := (bytes : ℝ) * 8
  (round (Real.log 2 * bits / (capacity : ℝ))).toNat

/-- Source src/src/lib.rs:40-55, `BloomFilter::with_parameters`: derives the
capacity, allocates `size * 8` zero bits.  The source asserts
`capacity > 0` (panicking otherwise); the model constructs the record
unconditionally and the theorems that rely on a constructed filter prove
the assert condition separately where relevant. -/
noncomputable def BloomFilter.with_parameters (size k : Nat) (fp : ℝ) : BloomFilter :=
  { array := List.replicate (size * 8) false
    size := size
    k := k
    capacity := calculate_capacity_from_fp_size fp size
    stored_items := 0
    fp := fp }

/-- Source src/src/lib.rs:35-38, `BloomFilter::new` delegates to
`with_parameters`. -/
noncomputable def BloomFilter.mk_new (size k : Nat) (fp : ℝ) : BloomFilter :=
  BloomFilter.with_parameters size k fp

/-- Source src/src/lib.rs:67-71, `BloomFilter::with_fp_size`. -/
noncomputable def BloomFilter.with_fp_size (fp : ℝ) (expected : Nat) : BloomFilter :=
  let size := calculate_size_from_fp_capacity fp expected
  let k := calculate_k size expected
  BloomFilter.mk_new size k fp

/-- Source src/src/lib.rs:57-64, the method `BloomFilter::fp()` (named
`fp_current` here because `fp` is taken by the configured-rate field):
returns the configured rate while `stored_items == 0`, else the estimate
from `(size, stored_items)`. -/
noncomputable def BloomFilter.fp_current (f : BloomFilter) : ℝ :=
  if f.stored_items = 0 then f.fp
  else calculate_fp_from_capacity_size f.size f.stored_items

/-- Source src/src/dynamic.rs:6-12, `struct DynamicBloom`. -/
structure DynamicBloom where
  filters : List BloomFilter
  active_idx : Nat
  expected : Nat
  fp : ℝ
  inserted : Nat

/-- Source src/src/dynamic.rs:15-26, `DynamicBloom::new`: a single partition
built by `with_fp_size`, active index 0, insert counter 0. -/
noncomputable def DynamicBloom.mk_new (expected : Nat) (fp : ℝ) : DynamicBloom :=
  { filters := [BloomFilter.with_fp_size fp expected]
    active_idx := 0
    expected := expected
    fp := fp
    inserted := 0 }

/-- Source src/src/dynamic.rs:29-34, `DynamicBloom::get_active` (the source
`expect`s the index to be valid; the model returns a default filter when out
of bounds, a case that never arises in the states the theorems consider). -/
def DynamicBloom.get_active (d : DynamicBloom) : BloomFilter :=
  d.filters.getD d.active_idx default

/-- Source src/src/dynamic.rs:38-46, `DynamicBloom::should_resize`: when the
active filter has reached its capacity, push a fresh `with_fp_size` filter
and advance `active_idx`. -/
noncomputable def DynamicBloom.should_resize (d : DynamicBloom) : DynamicBloom :=
  if d.get_active.stored ≥ d.get_active.capacity then
    { d with
      filters := d.filters ++ [BloomFilter.with_fp_size d.fp d.expected]
      active_idx := d.active_idx + 1 }
  else d

/-- Source src/src/dynamic.rs:48-55, `DynamicBloom::add`: the resize check is
throttled by `inserted >= expected / 10`; the item goes into the active
filter; the chain-wide counter increments. -/
noncomputable def DynamicBloom.add {α : Type} (spooky : α → Nat) (d : DynamicBloom)
    (item : α) : DynamicBloom :=
  let e := if d.inserted ≥ d.expected / 10 then d.should_resize else d
  { e with
    filters := e.filters.set e.active_idx (e.get_active.add spooky item)
    inserted := e.inserted + 1 }

/-- Source src/src/dynamic.rs:57-64, `DynamicBloom::get`: true as soon as any
partition reports true. -/
def DynamicBloom.get {α : Type} (spooky : α → Nat) (d : DynamicBloom) (item : α) :
    Bool :=
  d.filters.any (fun f => f.get spooky item)

/-- Source src/src/dynamic.rs:66-68, `DynamicBloom::len`. -/
def DynamicBloom.len (d : DynamicBloom) : Nat := d.filters.length

/-- Source src/src/dynamic.rs:80-83, `DynamicBloom::extend`: asserts that the
two chains share the same `expected` capacity (a panic reported to the
caller, modelled as `none`), then concatenates the partition chains.  Note
that `active_idx` is left unchanged. -/
def DynamicBloom.extend (d other : DynamicBloom) : Option DynamicBloom :=
  if d.expected = other.expected then
    some { d with filters := d.filters ++ other.filters }
  else none

/-- Repeated insertion into a plain filter (folds `BloomFilter::add`). -/
def addList {α : Type} (spooky : α → Nat) (f : BloomFilter) (items : List α) :
    BloomFilter :=
  items.foldl (fun g x => g.add spooky x) f

/-- Repeated insertion into a dynamic chain (folds `DynamicBloom::add`). -/
noncomputable def dynAddList {α : Type} (spooky : α → Nat) (d : DynamicBloom)
    (items : List α) : DynamicBloom :=
  items.foldl (fun e x => e.add spooky x) d

/-- Source src/src/queue.rs:4-8, `struct BoundedVecDeque` (inner VecDeque
modelled as a list, `size` is the bound). -/
structure BoundedVecDeque (T : Type) where
  inner : List T
  size : Nat

/-- Source src/src/queue.rs:17-19, `BoundedVecDeque::len`. -/
def BoundedVecDeque.len {T : Type} (q : BoundedVecDeque T) : Nat := q.inner.length

/-- Source src/src/queue.rs:21-23, `BoundedVecDeque::remove` delegates to
`VecDeque::remove`: returns the element at `index` (None when out of range)
and closes the gap. -/
def BoundedVecDeque.remove {T : Type} (q : BoundedVecDeque T) (index : Nat) :
    Option T × BoundedVecDeque T :=
  if h : index < q.inner.length then
    (some (q.inner.get ⟨index, h⟩), { q with inner := q.inner.eraseIdx index })
  else (none, q)

/-- Source src/src/queue.rs:26-29, `BoundedVecDeque::extend_with`: push_back
on the inner deque and grow the bound. -/
def BoundedVecDeque.extend_with {T : Type} (q : BoundedVecDeque T) (item : T) :
    BoundedVecDeque T :=
  { inner := q.inner ++ [item], size := q.size + 1 }

/-- Source src/src/queue.rs:80-90, the FromIterator instance: collect the
items, with the bound set to the resulting length. -/
def BoundedVecDeque.from_list {T : Type} (l : List T) : BoundedVecDeque T :=
  { inner := l, size := l.length }

/-- Source src/src/age.rs:90-97, `struct Slice` (`timestamp: Instant`
modelled as a Nat logical clock). -/
structure Slice where
  size : Nat
  count : Nat
  hash_index : Nat
  timestamp : Nat
  data : List Bool

instance : Inhabited Slice :=
  ⟨{ size := 0, count := 0, hash_index := 0, timestamp := 0, data := [] }⟩

/-- Source src/src/age.rs:115-125, `Slice::new`. -/
def Slice.mk_new (size : Nat) (hash_index : Nat) (timestamp : Nat) : Slice :=
  { size := size, count := 0, hash_index := hash_index, timestamp := timestamp
    data := List.replicate (size * 8) false }

/-- Source src/src/age.rs:99-113, `struct AgeFilter`. -/
structure AgeFilter where
  num_hash : Nat
  batches : Nat
  optimal_slices : Nat
  error_rate : ℝ
  capacity : Nat
  inserts : Nat
  num_slices : Nat
  assess_freq : Nat
  slices : BoundedVecDeque Slice

/-- Loop of src/src/age.rs:139-147 (`AgeFilter::retire_slices`): for each
`i` of the iteration range, the slice at `i - removed` is checked against
`ts`; when it is older the slice AT INDEX `i` is removed (the Option result
of `remove` is discarded) and `removed` increments, otherwise the loop
breaks. -/
def retireLoop (ts : Nat) : List Nat → BoundedVecDeque Slice → Nat →
    BoundedVecDeque Slice × Nat
  | [], q, removed => (q, removed)
  | i :: rest, q, removed =>
    if (q.inner.getD (i - removed) default).timestamp < ts then
      retireLoop ts rest (q.remove i).2 (removed + 1)
    else (q, removed)

/-- Source src/src/age.rs:135-149, `AgeFilter::retire_slices`: runs the
retire loop over `(optimal_slices - 1)..(num_slices - 1)` with `ts` the
`Instant::now()` taken on entry, then resyncs `num_slices` to the actual
length. -/
def AgeFilter.retire_slices (ts : Nat) (f : AgeFilter) : AgeFilter :=
  let idxs := List.range' (f.optimal_slices - 1)
    (f.num_slices - 1 - (f.optimal_slices - 1))
  let q := (retireLoop ts idxs f.slices 0).1
  { f with slices := q, num_slices := q.len }

/-- Source src/src/age.rs:151-155, `AgeFilter::add_slice`: appends (via
`extend_with`) a fresh slice whose hash index decrements (mod `num_hash`)
from that of `slices[1]`, and whose size copies `slices[1]`; the `size`
argument of the source function is unused there.  `num_slices`
increments. -/
def AgeFilter.add_slice (ts : Nat) (f : AgeFilter) (size : Nat) : AgeFilter :=
  let template := f.slices.inner.getD 1 default
  let hash_index := (template.hash_index - 1 + f.num_hash) % f.num_hash
  { f with
    slices := f.slices.extend_with (Slice.mk_new template.size hash_index ts)
    num_slices := f.num_slices + 1 }

/-- Source src/src/age.rs:157-173, `AgeFilter::new`: `optimal_size =
batches + num_hash` slices, each of the given size, hash indices rotating
mod `num_hash`, all stamped with construction time. -/
def AgeFilter.mk_new (num_hash batches : Nat) (slice_size : Nat) (ts : Nat) :
    AgeFilter :=
  let optimal_size := batches + num_hash
  { num_hash := num_hash
    batches := batches
    num_slices := optimal_size
    optimal_slices := optimal_size
    slices := BoundedVecDeque.from_list ((List.range optimal_size).map
      (fun i => Slice.mk_new slice_size (i % num_hash) ts))
    error_rate := 0
    inserts := 0
    capacity := 0
    assess_freq := 0 }

end Bloom

namespace Bloom

/- ### Basic facts about setBits and the bit array -/

theorem setBits_nil (a : List Bool) : setBits a [] = a := rfl

theorem setBits_cons (a : List Bool) (p : Nat) (ps : List Nat) :
    setBits a (p :: ps) = setBits (a.set p true) ps := rfl

theorem length_setBits (a : List Bool) (ps : List Nat) :
    (setBits a ps).length = a.length := by
  induction ps generalizing a with
  | nil => rfl
  | cons p ps ih => rw [setBits_cons, ih, List.length_set]

theorem getD_set (a : List Bool) (p i : Nat) (b : Bool) :
    (a.set p b).getD i false =
      if p = i ∧ i < a.length then b else a.getD i false := by
  by_cases hi : i < a.length
  · rw [List.getD_eq_getElem _ _ (by simpa using hi), List.getD_eq_getElem _ _ hi,
      List.getElem_set]
    by_cases hpi : p = i <;> simp [hpi, hi]
  · rw [List.getD_eq_default _ _ (by simpa using Nat.le_of_not_lt hi),
      List.getD_eq_default _ _ (Nat.le_of_not_lt hi),
      if_neg (fun h => hi h.2)]

theorem getD_setBits (a : List Bool) (ps : List Nat) (i : Nat) :
    (setBits a ps).getD i false =
      if i ∈ ps ∧ i < a.length then true else a.getD i false := by
  induction ps generalizing a with
  | nil => simp [setBits_nil]
  | cons p ps ih =>
    rw [setBits_cons, ih, List.length_set, getD_set]
    by_cases hi : i < a.length
    · by_cases hm : i ∈ ps
      · rw [if_pos ⟨hm, hi⟩, if_pos ⟨List.mem_cons_of_mem _ hm, hi⟩]
      · rw [if_neg (fun h => hm h.1)]
        by_cases hp : p = i
        · rw [if_pos ⟨hp, hi⟩, if_pos ⟨List.mem_cons.2 (Or.inl hp.symm), hi⟩]
        · rw [if_neg (fun h => hp h.1), if_neg ?_]
          intro h
          rcases List.mem_cons.1 h.1 with h1 | h1
          · exact hp h1.symm
          · exact hm h1
    · rw [if_neg (fun h => hi h.2), if_neg (fun h => hi h.2),
        if_neg (fun h => hi h.2)]

theorem getD_setBits_mono (a : List Bool) (ps : List Nat) (i : Nat)
    (h : a.getD i false = true) : (setBits a ps).getD i false = true := by
  rw [getD_setBits]
  by_cases hc : i ∈ ps ∧ i < a.length
  · rw [if_pos hc]
  · rw [if_neg hc]; exact h

theorem getD_setBits_mem (a : List Bool) (ps : List Nat) (i : Nat)
    (hm : i ∈ ps) (hi : i < a.length) : (setBits a ps).getD i false = true := by
  rw [getD_setBits, if_pos ⟨hm, hi⟩]

theorem setBits_setBits (a : List Bool) (ps : List Nat) :
    setBits (setBits a ps) ps = setBits a ps := by
  apply List.ext_getElem (by rw [length_setBits, length_setBits])
  intro n h1 h2
  rw [← List.getD_eq_getElem _ false h1, ← List.getD_eq_getElem _ false h2,
    getD_setBits, getD_setBits, length_setBits]
  by_cases h : n ∈ ps ∧ n < a.length
  · simp [h]
  · simp [h]

/- ### The closed form of compute_hashes -/

theorem foldl_insertIdx_extra (A B : Nat) : ∀ (m s : Nat) (l : List Nat),
    l.length = s → 4 ≤ s → l.getD 1 0 = A → l.getD 3 0 = B →
    (List.range' s m).foldl
        (fun r i => r.insertIdx i ((r.getD 1 0 + r.getD 3 0 * i % U64 % HASH_PRIME) % U64)) l =
      l ++ (List.range' s m).map (fun i => (A + B * i % U64 % HASH_PRIME) % U64) := by
  intro m
  induction m with
  | zero => intro s l _ _ _ _; simp
  | succ m ih =>
    intro s l hlen hs h1 h3
    rw [List.range'_succ, List.foldl_cons, h1, h3]
    have hins : l.insertIdx s ((A + B * s % U64 % HASH_PRIME) % U64) =
        l ++ [(A + B * s % U64 % HASH_PRIME) % U64] := by
      rw [← hlen, List.insertIdx_length_self]
    rw [hins, ih (s + 1) _ (by simp [hlen]) (by omega)
      (by rw [List.getD_append _ _ _ _ (by omega)]; exact h1)
      (by rw [List.getD_append _ _ _ _ (by omega)]; exact h3)]
    simp [List.map_cons, List.append_assoc]

theorem range_drop_four (k : Nat) : (List.range k).drop 4 = List.range' 4 (k - 4) := by
  rcases Nat.le_total k 4 with h | h
  · rw [List.drop_eq_nil_of_le (by simpa using h)]
    have : k - 4 = 0 := by omega
    rw [this]
    rfl
  · have hsplit : List.range k = List.range' 0 4 ++ List.range' 4 (k - 4) := by
      rw [List.range_eq_range']
      have h2 := List.range'_append 0 4 (k - 4) 1
      simp only [Nat.one_mul, Nat.zero_add] at h2
      have hk : k - 4 + 4 = k := by omega
      rw [h2, hk]
    rw [hsplit]
    exact List.drop_left (List.range' 0 4) (List.range' 4 (k - 4))

theorem compute_hashes_eq {α : Type} (spooky : α → Nat) (k : Nat) (item : α) :
    compute_hashes spooky k item =
      [lo64 (spooky item % U128), hi64 (spooky item % U128),
       lo64 (spooky item % U128), hi64 (spooky item % U128)] ++
      (List.range' 4 (k - 4)).map
        (fun i => extra_hash (spooky item % U128) (spooky item % U128) i) := by
  unfold compute_hashes
  rw [range_drop_four]
  exact foldl_insertIdx_extra _ _ (k - 4) 4 _ rfl (by omega) rfl rfl

theorem getD_map_range (f : Nat → Nat) (s n j : Nat) (h : j < n) :
    ((List.range' s n).map f).getD j 0 = f (s + j) := by
  rw [List.getD_eq_getElem _ _ (by simp [h])]
  simp [List.getElem_range'_1]

theorem compute_hashes_getD_extra {α : Type} (spooky : α → Nat) (k : Nat) (item : α)
    (i : Nat) (h4 : 4 ≤ i) (hk : i < k) :
    (compute_hashes spooky k item).getD i 0 =
      extra_hash (spooky item % U128) (spooky item % U128) i := by
  rw [compute_hashes_eq]
  have hbase : [lo64 (spooky item % U128), hi64 (spooky item % U128),
      lo64 (spooky item % U128), hi64 (spooky item % U128)].length = 4 := rfl
  rw [List.getD_append_right _ _ _ _ (by rw [hbase]; omega), hbase,
    getD_map_range _ _ _ _ (by omega)]
  have h44 : 4 + (i - 4) = i := by omega
  rw [h44]

theorem compute_hashes_base {α : Type} (spooky : α → Nat) (k : Nat) (item : α) :
    (compute_hashes spooky k item).getD 0 0 = lo64 (spooky item % U128) ∧
    (compute_hashes spooky k item).getD 1 0 = hi64 (spooky item % U128) ∧
    (compute_hashes spooky k item).getD 2 0 = lo64 (spooky item % U128) ∧
    (compute_hashes spooky k item).getD 3 0 = hi64 (spooky item % U128) := by
  rw [compute_hashes_eq]
  refine ⟨?_, ?_, ?_, ?_⟩ <;>
    rw [List.getD_append _ _ _ _ (by simp)] <;> rfl

end Bloom

namespace Bloom

/- ### Characterisation of BloomFilter add and get -/

/-- Bit positions touched by `add`/`get` for an item: pass `idx` uses
`hashes[idx] % bits`. -/
def bitIndices {α : Type} (spooky : α → Nat) (f : BloomFilter) (item : α) :
    List Nat :=
  (List.range f.k).map
    (fun idx => (compute_hashes spooky f.k item).getD idx 0 % f.array.length)

theorem foldl_set_eq_setBits (h : Nat → Nat) : ∀ (l : List Nat) (a : List Bool),
    l.foldl (fun arr idx => arr.set (h idx % arr.length) true) a =
      setBits a (l.map (fun idx => h idx % a.length)) := by
  intro l
  induction l with
  | nil => intro a; rfl
  | cons p rest ih =>
    intro a
    rw [List.foldl_cons, ih, List.map_cons, setBits_cons]
    simp only [List.length_set]

theorem add_array {α : Type} (spooky : α → Nat) (f : BloomFilter) (item : α) :
    (f.add spooky item).array = setBits f.array (bitIndices spooky f item) :=
  foldl_set_eq_setBits _ _ _

theorem add_length {α : Type} (spooky : α → Nat) (f : BloomFilter) (item : α) :
    (f.add spooky item).array.length = f.array.length := by
  rw [add_array, length_setBits]

theorem add_k {α : Type} (spooky : α → Nat) (f : BloomFilter) (item : α) :
    (f.add spooky item).k = f.k := rfl

theorem add_stored {α : Type} (spooky : α → Nat) (f : BloomFilter) (item : α) :
    (f.add spooky item).stored_items = f.stored_items + 1 := rfl

theorem foldl_and_eq_all (A : Nat → Bool) : ∀ (l : List Nat) (b : Bool),
    l.foldl (fun result p => if A p = false then false else result) b =
      (b && l.all A) := by
  intro l
  induction l with
  | nil => intro b; simp
  | cons p rest ih =>
    intro b
    rw [List.foldl_cons, ih, List.all_cons]
    cases hA : A p <;> simp [hA]

theorem get_eq_all {α : Type} (spooky : α → Nat) (f : BloomFilter) (item : α) :
    f.get spooky item =
      (bitIndices spooky f item).all (fun p => f.array.getD p false) := by
  unfold BloomFilter.get bitIndices
  rw [foldl_and_eq_all, List.all_map]
  rfl

theorem bitIndices_congr {α : Type} (spooky : α → Nat) (g f : BloomFilter) (item : α)
    (hk : g.k = f.k) (hlen : g.array.length = f.array.length) :
    bitIndices spooky g item = bitIndices spooky f item := by
  unfold bitIndices
  rw [hk, hlen]

theorem mem_bitIndices_lt {α : Type} (spooky : α → Nat) (f : BloomFilter) (item : α)
    (p : Nat) (h : 0 < f.array.length) (hp : p ∈ bitIndices spooky f item) :
    p < f.array.length := by
  simp only [bitIndices, List.mem_map] at hp
  obtain ⟨idx, _, rfl⟩ := hp
  exact Nat.mod_lt _ h

theorem add_get_same {α : Type} (spooky : α → Nat) (f : BloomFilter) (item : α)
    (h : 0 < f.array.length) : (f.add spooky item).get spooky item = true := by
  rw [get_eq_all, List.all_eq_true]
  intro p hp
  rw [bitIndices_congr spooky (f.add spooky item) f item (add_k spooky f item)
    (add_length spooky f item)] at hp
  rw [add_array]
  exact getD_setBits_mem _ _ _ hp (mem_bitIndices_lt spooky f item p h hp)

theorem get_add_mono {α : Type} (spooky : α → Nat) (f : BloomFilter) (item other : α)
    (h : f.get spooky item = true) :
    (f.add spooky other).get spooky item = true := by
  rw [get_eq_all, List.all_eq_true] at h ⊢
  intro p hp
  rw [bitIndices_congr spooky (f.add spooky other) f item (add_k spooky f other)
    (add_length spooky f other)] at hp
  rw [add_array]
  exact getD_setBits_mono _ _ _ (h p hp)

theorem addList_get_mono {α : Type} (spooky : α → Nat) (item : α) :
    ∀ (items : List α) (f : BloomFilter), f.get spooky item = true →
      (addList spooky f items).get spooky item = true := by
  intro items
  induction items with
  | nil => intro f h; exact h
  | cons y rest ih =>
    intro f h
    exact ih (f.add spooky y) (get_add_mono spooky f item y h)

end Bloom

namespace Bloom

/- ### DynamicBloom machinery -/

theorem getD_set_any {T : Type} (l : List T) (p i : Nat) (b dflt : T) :
    (l.set p b).getD i dflt =
      if p = i ∧ i < l.length then b else l.getD i dflt := by
  by_cases hi : i < l.length
  · rw [List.getD_eq_getElem _ _ (by simpa using hi), List.getD_eq_getElem _ _ hi,
      List.getElem_set]
    by_cases hpi : p = i <;> simp [hpi, hi]
  · rw [List.getD_eq_default _ _ (by simpa using Nat.le_of_not_lt hi),
      List.getD_eq_default _ _ (Nat.le_of_not_lt hi),
      if_neg (fun h => hi h.2)]

/-- Membership test of a dynamic chain, index form. -/
theorem dget_iff {α : Type} (spooky : α → Nat) (d : DynamicBloom) (item : α) :
    d.get spooky item = true ↔
      ∃ j, j < d.filters.length ∧
        (d.filters.getD j default).get spooky item = true := by
  unfold DynamicBloom.get
  rw [List.any_eq_true]
  constructor
  · rintro ⟨g, hg, hp⟩
    obtain ⟨j, hj, hget⟩ := List.mem_iff_getElem.1 hg
    refine ⟨j, hj, ?_⟩
    rw [List.getD_eq_getElem _ _ hj, hget]
    exact hp
  · rintro ⟨j, hj, hp⟩
    refine ⟨d.filters.getD j default, ?_, hp⟩
    rw [List.getD_eq_getElem _ _ hj]
    exact List.getElem_mem hj

/-- The throttled resize step at the top of `DynamicBloom::add`. -/
noncomputable def dynStep (d : DynamicBloom) : DynamicBloom :=
  if d.inserted ≥ d.expected / 10 then d.should_resize else d

theorem add_eq_dynStep {α : Type} (spooky : α → Nat) (d : DynamicBloom) (x : α) :
    d.add spooky x =
      { dynStep d with
        filters := (dynStep d).filters.set (dynStep d).active_idx
          ((dynStep d).get_active.add spooky x)
        inserted := (dynStep d).inserted + 1 } := rfl

theorem should_resize_cases (d : DynamicBloom) :
    d.should_resize = d ∨
      d.should_resize =
        { d with
          filters := d.filters ++ [BloomFilter.with_fp_size d.fp d.expected]
          active_idx := d.active_idx + 1 } := by
  unfold DynamicBloom.should_resize
  by_cases h : d.get_active.stored ≥ d.get_active.capacity
  · right; rw [if_pos h]
  · left; rw [if_neg h]

theorem dynStep_cases (d : DynamicBloom) :
    dynStep d = d ∨
      dynStep d =
        { d with
          filters := d.filters ++ [BloomFilter.with_fp_size d.fp d.expected]
          active_idx := d.active_idx + 1 } := by
  unfold dynStep
  by_cases h : d.inserted ≥ d.expected / 10
  · rw [if_pos h]; exact should_resize_cases d
  · left; rw [if_neg h]

/-- Well-formedness of a dynamic chain: every partition has a nonempty bit
array, the partition that a resize would append has a nonempty bit array
(the source asserts exactly this through `with_parameters`), and the active
index is in bounds (the source `expect`s this in `get_active`). -/
def GoodChain (d : DynamicBloom) : Prop :=
  (∀ g ∈ d.filters, 0 < g.array.length) ∧
  0 < (BloomFilter.with_fp_size d.fp d.expected).array.length ∧
  d.active_idx < d.filters.length

theorem goodChain_dynStep (d : DynamicBloom) (h : GoodChain d) :
    GoodChain (dynStep d) ∧ (dynStep d).fp = d.fp ∧
      (dynStep d).expected = d.expected ∧
      d.filters.length ≤ (dynStep d).filters.length ∧
      (∀ j, j < d.filters.length →
        (dynStep d).filters.getD j default = d.filters.getD j default) := by
  rcases dynStep_cases d with hc | hc <;> rw [hc]
  · exact ⟨h, rfl, rfl, Nat.le_refl _, fun j _ => rfl⟩
  · obtain ⟨h1, h2, h3⟩ := h
    refine ⟨⟨?_, h2, ?_⟩, rfl, rfl, ?_, ?_⟩
    · intro g hg
      rcases List.mem_append.1 hg with hg | hg
      · exact h1 g hg
      · rw [List.mem_singleton.1 hg]; exact h2
    · simp only [List.length_append, List.length_singleton]
      omega
    · simp only [List.length_append, List.length_singleton]
      omega
    · intro j hj
      exact List.getD_append _ _ _ _ hj

theorem goodChain_get_active (d : DynamicBloom) (h : GoodChain d) :
    d.get_active ∈ d.filters := by
  unfold DynamicBloom.get_active
  rw [List.getD_eq_getElem _ _ h.2.2]
  exact List.getElem_mem h.2.2

theorem goodChain_add {α : Type} (spooky : α → Nat) (d : DynamicBloom) (x : α)
    (h : GoodChain d) :
    GoodChain (d.add spooky x) ∧ (d.add spooky x).fp = d.fp ∧
      (d.add spooky x).expected = d.expected ∧
      d.filters.length ≤ (d.add spooky x).filters.length := by
  obtain ⟨hstep, hfp, hexp, hlen, _⟩ := goodChain_dynStep d h
  rw [add_eq_dynStep]
  obtain ⟨s1, s2, s3⟩ := hstep
  refine ⟨⟨?_, by rw [hfp, hexp] at s2 ⊢; exact s2, ?_⟩, hfp, hexp, ?_⟩
  · intro g hg
    rcases List.mem_or_eq_of_mem_set hg with hg | hg
    · exact s1 g hg
    · rw [hg]
      rw [add_length]
      exact s1 _ (goodChain_get_active _ ⟨s1, s2, s3⟩)
  · simp only [List.length_set]
    exact s3
  · simp only [List.length_set]
    exact hlen

theorem dget_add_mono {α : Type} (spooky : α → Nat) (d : DynamicBloom) (x item : α)
    (h : d.get spooky item = true) :
    (d.add spooky x).get spooky item = true := by
  rw [dget_iff] at h
  obtain ⟨j, hj, hg⟩ := h
  rw [add_eq_dynStep, dget_iff]
  have hstep : ∀ i, i < d.filters.length →
      (dynStep d).filters.getD i default = d.filters.getD i default := by
    rcases dynStep_cases d with hc | hc <;> rw [hc]
    · intro i _; rfl
    · intro i hi; exact List.getD_append _ _ _ _ hi
  have hlen : d.filters.length ≤ (dynStep d).filters.length := by
    rcases dynStep_cases d with hc | hc
    · rw [hc]
    · rw [hc]; simp only [List.length_append, List.length_singleton]; omega
  refine ⟨j, ?_, ?_⟩
  · simp only [List.length_set]
    omega
  · rw [getD_set_any]
    by_cases hc : (dynStep d).active_idx = j ∧ j < (dynStep d).filters.length
    · rw [if_pos hc]
      have : (dynStep d).get_active = (dynStep d).filters.getD j default := by
        unfold DynamicBloom.get_active
        rw [hc.1]
      rw [this, hstep j hj]
      exact get_add_mono spooky _ item x hg
    · rw [if_neg hc, hstep j hj]
      exact hg

theorem dget_add_same {α : Type} (spooky : α → Nat) (d : DynamicBloom) (x : α)
    (h : GoodChain d) : (d.add spooky x).get spooky x = true := by
  obtain ⟨hstep, _, _, _, _⟩ := goodChain_dynStep d h
  rw [add_eq_dynStep, dget_iff]
  refine ⟨(dynStep d).active_idx, ?_, ?_⟩
  · simp only [List.length_set]
    exact hstep.2.2
  · rw [getD_set_any, if_pos ⟨rfl, hstep.2.2⟩]
    apply add_get_same
    exact hstep.1 _ (goodChain_get_active _ hstep)

theorem dynAddList_get_mono {α : Type} (spooky : α → Nat) (item : α) :
    ∀ (items : List α) (d : DynamicBloom), d.get spooky item = true →
      (dynAddList spooky d items).get spooky item = true := by
  intro items
  induction items with
  | nil => intro d h; exact h
  | cons y rest ih =>
    intro d h
    exact ih (d.add spooky y) (dget_add_mono spooky d y item h)

theorem goodChain_dynAddList {α : Type} (spooky : α → Nat) :
    ∀ (items : List α) (d : DynamicBloom), GoodChain d →
      GoodChain (dynAddList spooky d items) := by
  intro items
  induction items with
  | nil => intro d h; exact h
  | cons y rest ih =>
    intro d h
    exact ih (d.add spooky y) (goodChain_add spooky d y h).1

/-- Every item of an insertion run is found afterwards (dynamic chain). -/
theorem dyn_mem_get {α : Type} (spooky : α → Nat) (item : α) :
    ∀ (items : List α) (d : DynamicBloom), item ∈ items → GoodChain d →
      (dynAddList spooky d items).get spooky item = true := by
  intro items
  induction items with
  | nil => intro d h; exact absurd h (List.not_mem_nil _)
  | cons y rest ih =>
    intro d hmem hg
    rcases List.mem_cons.1 hmem with heq | hmem2
    · rw [heq]
      exact dynAddList_get_mono spooky y rest (d.add spooky y)
        (dget_add_same spooky d y hg)
    · exact ih (d.add spooky y) hmem2 (goodChain_add spooky d y hg).1

end Bloom

namespace Bloom

/- ### Numeric bounds for the transcendental parameter mathematics -/

theorem log_five_quarter_gt : (0.22314353 : ℝ) < Real.log (5/4) := by
  have t : |(-1/4 : ℝ)| = 1/4 := by rw [abs_of_nonpos] <;> norm_num
  have z := Real.abs_log_sub_add_sum_range_le (x := (-1/4 : ℝ)) (by rw [t]; norm_num) 12
  rw [t] at z
  rw [abs_le] at z
  obtain ⟨z1, z2⟩ := z
  simp_rw [Finset.sum_range_succ, Finset.sum_range_zero] at z1
  norm_num at z1
  linarith

theorem log_five_quarter_lt : Real.log (5/4) < (0.22314358 : ℝ) := by
  have t : |(-1/4 : ℝ)| = 1/4 := by rw [abs_of_nonpos] <;> norm_num
  have z := Real.abs_log_sub_add_sum_range_le (x := (-1/4 : ℝ)) (by rw [t]; norm_num) 12
  rw [t] at z
  rw [abs_le] at z
  obtain ⟨z1, z2⟩ := z
  simp_rw [Finset.sum_range_succ, Finset.sum_range_zero] at z2
  norm_num at z2
  linarith

theorem log_two_sq_gt : (0.4804530135 : ℝ) < Real.log 2 * Real.log 2 := by
  have ha := Real.log_two_gt_d9
  nlinarith

theorem log_two_sq_lt : Real.log 2 * Real.log 2 < (0.4804530143 : ℝ) := by
  have ha := Real.log_two_gt_d9
  have hb := Real.log_two_lt_d9
  nlinarith

theorem log_twenty_eq : Real.log 20 = 4 * Real.log 2 + Real.log (5/4) := by
  have h : (20:ℝ) = 2^4 * (5/4) := by norm_num
  rw [h, Real.log_mul (by positivity) (by positivity), Real.log_pow]
  push_cast
  ring

theorem log_hundred_eq : Real.log 100 = 6 * Real.log 2 + 2 * Real.log (5/4) := by
  have h : (100:ℝ) = 2^6 * (5/4)^2 := by norm_num
  rw [h, Real.log_mul (by positivity) (by positivity), Real.log_pow, Real.log_pow]
  push_cast
  ring

theorem log_thousand_eq : Real.log 1000 = 9 * Real.log 2 + 3 * Real.log (5/4) := by
  have h : (1000:ℝ) = 2^9 * (5/4)^3 := by norm_num
  rw [h, Real.log_mul (by positivity) (by positivity), Real.log_pow, Real.log_pow]
  push_cast
  ring

/-- Regression value: `calculate_k(512, 5000) == 1`. -/
theorem calc_k_512_5000 : calculate_k 512 5000 = 1 := by
  show (round (Real.log 2 * (((512:Nat):ℝ) * 8) / ((5000:Nat):ℝ))).toNat = 1
  have ha := Real.log_two_gt_d9
  have hb := Real.log_two_lt_d9
  have h : round (Real.log 2 * (((512:Nat):ℝ) * 8) / ((5000:Nat):ℝ)) = (1:ℤ) := by
    rw [round_eq, Int.floor_eq_iff]
    push_cast
    constructor
    · linarith
    · linarith
  rw [h]
  rfl

/-- Regression value: `calculate_capacity_from_fp_size(0.01, 512) == 427`. -/
theorem calc_capacity_001_512 : calculate_capacity_from_fp_size (1/100) 512 = 427 := by
  have hlog : Real.log ((1:ℝ)/100) = -(6 * Real.log 2 + 2 * Real.log (5/4)) := by
    rw [one_div, Real.log_inv, log_hundred_eq]
  have ha := Real.log_two_gt_d9
  have hb := Real.log_two_lt_d9
  have hc := log_five_quarter_gt
  have hd := log_five_quarter_lt
  have hsq1 := log_two_sq_gt
  have hsq2 := log_two_sq_lt
  have hD : (0:ℝ) < 6 * Real.log 2 + 2 * Real.log (5/4) := by linarith
  show (⌊-(((512:Nat):ℝ) * 8 / Real.log (1/100) * (Real.log 2 * Real.log 2))⌋).toNat = 427
  have hval : -(((512:Nat):ℝ) * 8 / Real.log (1/100) * (Real.log 2 * Real.log 2)) =
      4096 * (Real.log 2 * Real.log 2) / (6 * Real.log 2 + 2 * Real.log (5/4)) := by
    rw [hlog]
    push_cast
    rw [div_neg, neg_mul, neg_neg, div_mul_eq_mul_div]
    norm_num
  rw [hval]
  have h1 : ⌊4096 * (Real.log 2 * Real.log 2) /
      (6 * Real.log 2 + 2 * Real.log (5/4))⌋ = (427:ℤ) := by
    rw [Int.floor_eq_iff]
    constructor
    · rw [le_div_iff hD]
      push_cast
      linarith
    · rw [div_lt_iff hD]
      push_cast
      linarith
  rw [h1]
  rfl

/-- Regression value: `calculate_size_from_fp_capacity(0.001, 5000) == 8986`. -/
theorem calc_size_0001_5000 : calculate_size_from_fp_capacity (1/1000) 5000 = 8986 := by
  have hlog : Real.log ((1:ℝ)/1000) = -(9 * Real.log 2 + 3 * Real.log (5/4)) := by
    rw [one_div, Real.log_inv, log_thousand_eq]
  have ha := Real.log_two_gt_d9
  have hb := Real.log_two_lt_d9
  have hc := log_five_quarter_gt
  have hd := log_five_quarter_lt
  have hsq1 := log_two_sq_gt
  have hsq2 := log_two_sq_lt
  have hS : (0:ℝ) < Real.log 2 * Real.log 2 := by linarith
  show (⌈(((⌈-(((5000:Nat):ℝ) * Real.log (1/1000) / (Real.log 2 * Real.log 2))⌉:ℤ)):ℝ) / 8⌉).toNat = 8986
  have hval : -(((5000:Nat):ℝ) * Real.log (1/1000) / (Real.log 2 * Real.log 2)) =
      5000 * (9 * Real.log 2 + 3 * Real.log (5/4)) / (Real.log 2 * Real.log 2) := by
    rw [hlog]
    push_cast
    rw [mul_neg, neg_div, neg_neg]
  rw [hval]
  have h1 : ⌈5000 * (9 * Real.log 2 + 3 * Real.log (5/4)) /
      (Real.log 2 * Real.log 2)⌉ = (71888:ℤ) := by
    rw [Int.ceil_eq_iff]
    constructor
    · rw [lt_div_iff hS]
      push_cast
      linarith
    · rw [div_le_iff hS]
      push_cast
      linarith
  rw [h1]
  have h2 : (((71888:ℤ)):ℝ) / 8 = (((8986:ℤ)):ℝ) := by norm_num
  rw [h2, Int.ceil_intCast]
  rfl

/-- Regression value:
`round(calculate_fp_from_capacity_size(512, 5000) * 1e6) == 674633`. -/
theorem calc_fp_512_5000 :
    round (calculate_fp_from_capacity_size 512 5000 * 1000000) = 674633 := by
  have hsq1 := log_two_sq_gt
  have hsq2 := log_two_sq_lt
  have hy : calculate_fp_from_capacity_size 512 5000 =
      Real.exp (-(0.8192 * (Real.log 2 * Real.log 2))) := by
    show Real.exp (-(((512:Nat):ℝ) * 8 / ((5000:Nat):ℝ)) * Real.log 2 ^ 2) = _
    congr 1
    rw [sq]
    push_cast
    ring
  have hz1 : (0.3935871086:ℝ) ≤ 0.8192 * (Real.log 2 * Real.log 2) := by linarith
  have hz2 : 0.8192 * (Real.log 2 * Real.log 2) ≤ (0.3935871094:ℝ) := by linarith
  have hU : Real.exp (0.3935871094:ℝ) ≤ 1.4822884 := by
    refine (Real.exp_bound' (by norm_num) (by norm_num) (n := 10) (by norm_num)).trans ?_
    simp_rw [Finset.sum_range_succ, Finset.sum_range_zero]
    norm_num [Nat.factorial]
  have hT : (1.48228839:ℝ) ≤ Real.exp (0.3935871086:ℝ) := by
    refine le_trans ?_ (Real.sum_le_exp_of_nonneg (by norm_num) 10)
    simp_rw [Finset.sum_range_succ, Finset.sum_range_zero]
    norm_num [Nat.factorial]
  have hE1 : Real.exp (0.8192 * (Real.log 2 * Real.log 2)) ≤ 1.4822884 :=
    le_trans (Real.exp_le_exp.2 hz2) hU
  have hE2 : (1.48228839:ℝ) ≤ Real.exp (0.8192 * (Real.log 2 * Real.log 2)) :=
    le_trans hT (Real.exp_le_exp.2 hz1)
  have hEpos : (0:ℝ) < Real.exp (0.8192 * (Real.log 2 * Real.log 2)) := Real.exp_pos _
  rw [hy, Real.exp_neg, inv_mul_eq_div, round_eq, Int.floor_eq_iff]
  push_cast
  constructor
  · rw [div_add' _ _ _ (ne_of_gt hEpos), le_div_iff hEpos]
    nlinarith
  · rw [div_add' _ _ _ (ne_of_gt hEpos), div_lt_iff hEpos]
    nlinarith

end Bloom

namespace Bloom

/-- Roundtrip fact: `calculate_size_from_fp_capacity(0.05, 16) == 13`
(the test configuration `DynamicBloom::new(16, 0.05)`). -/
theorem calc_size_005_16 : calculate_size_from_fp_capacity (1/20) 16 = 13 := by
  have hlog : Real.log ((1:ℝ)/20) = -(4 * Real.log 2 + Real.log (5/4)) := by
    rw [one_div, Real.log_inv, log_twenty_eq]
  have ha := Real.log_two_gt_d9
  have hb := Real.log_two_lt_d9
  have hc := log_five_quarter_gt
  have hd := log_five_quarter_lt
  have hsq1 := log_two_sq_gt
  have hsq2 := log_two_sq_lt
  have hS : (0:ℝ) < Real.log 2 * Real.log 2 := by linarith
  show (⌈(((⌈-(((16:Nat):ℝ) * Real.log (1/20) / (Real.log 2 * Real.log 2))⌉:ℤ)):ℝ) / 8⌉).toNat = 13
  have hval : -(((16:Nat):ℝ) * Real.log (1/20) / (Real.log 2 * Real.log 2)) =
      16 * (4 * Real.log 2 + Real.log (5/4)) / (Real.log 2 * Real.log 2) := by
    rw [hlog]
    push_cast
    rw [mul_neg, neg_div, neg_neg]
  rw [hval]
  have h1 : ⌈16 * (4 * Real.log 2 + Real.log (5/4)) /
      (Real.log 2 * Real.log 2)⌉ = (100:ℤ) := by
    rw [Int.ceil_eq_iff]
    constructor
    · rw [lt_div_iff hS]
      push_cast
      linarith
    · rw [div_le_iff hS]
      push_cast
      linarith
  rw [h1]
  have h2 : (((100:ℤ)):ℝ) / 8 = (12.5:ℝ) := by norm_num
  rw [h2]
  have h3 : ⌈(12.5:ℝ)⌉ = (13:ℤ) := by
    rw [Int.ceil_eq_iff] <;> norm_num
  rw [h3]
  rfl

/-- Roundtrip fact: `calculate_capacity_from_fp_size(0.05, 13) == 16`, so a
partition built by `with_fp_size(0.05, 16)` has capacity exactly 16. -/
theorem calc_capacity_005_13 : calculate_capacity_from_fp_size (1/20) 13 = 16 := by
  have hlog : Real.log ((1:ℝ)/20) = -(4 * Real.log 2 + Real.log (5/4)) := by
    rw [one_div, Real.log_inv, log_twenty_eq]
  have ha := Real.log_two_gt_d9
  have hb := Real.log_two_lt_d9
  have hc := log_five_quarter_gt
  have hd := log_five_quarter_lt
  have hsq1 := log_two_sq_gt
  have hsq2 := log_two_sq_lt
  have hD : (0:ℝ) < 4 * Real.log 2 + Real.log (5/4) := by linarith
  show (⌊-(((13:Nat):ℝ) * 8 / Real.log (1/20) * (Real.log 2 * Real.log 2))⌋).toNat = 16
  have hval : -(((13:Nat):ℝ) * 8 / Real.log (1/20) * (Real.log 2 * Real.log 2)) =
      104 * (Real.log 2 * Real.log 2) / (4 * Real.log 2 + Real.log (5/4)) := by
    rw [hlog]
    push_cast
    rw [div_neg, neg_mul, neg_neg, div_mul_eq_mul_div]
    norm_num
  rw [hval]
  have h1 : ⌊104 * (Real.log 2 * Real.log 2) /
      (4 * Real.log 2 + Real.log (5/4))⌋ = (16:ℤ) := by
    rw [Int.floor_eq_iff]
    constructor
    · rw [le_div_iff hD]
      push_cast
      linarith
    · rw [div_lt_iff hD]
      push_cast
      linarith
  rw [h1]
  rfl

/-- The partition built by `with_fp_size(0.05, 16)`: 13 bytes = 104 bits,
capacity 16, empty. -/
theorem with_fp_size_005_16 :
    (BloomFilter.with_fp_size (1/20) 16).array = List.replicate 104 false ∧
    (BloomFilter.with_fp_size (1/20) 16).capacity = 16 ∧
    (BloomFilter.with_fp_size (1/20) 16).stored_items = 0 ∧
    (BloomFilter.with_fp_size (1/20) 16).size = 13 := by
  unfold BloomFilter.with_fp_size BloomFilter.mk_new BloomFilter.with_parameters
  rw [calc_size_005_16]
  refine ⟨rfl, ?_, rfl, rfl⟩
  exact calc_capacity_005_13

theorem with_fp_size_005_16_len :
    (BloomFilter.with_fp_size (1/20) 16).array.length = 104 := by
  rw [with_fp_size_005_16.1, List.length_replicate]

/-- The source assert `capacity > 0` holds for `with_parameters(512, k, 0.9)`. -/
theorem capacity_910_512_pos : 0 < calculate_capacity_from_fp_size (9/10) 512 := by
  have hsq1 := log_two_sq_gt
  have hup : Real.log ((9:ℝ)/10) ≤ -(1/10) := by
    have h := Real.log_le_sub_one_of_pos (x := (9/10:ℝ)) (by norm_num)
    linarith
  have hlow : -(1/9) ≤ Real.log ((9:ℝ)/10) := by
    have h := Real.log_le_sub_one_of_pos (x := (10/9:ℝ)) (by norm_num)
    have hinv : Real.log ((9:ℝ)/10) = -Real.log ((10:ℝ)/9) := by
      rw [← Real.log_inv]
      norm_num
    rw [hinv]
    linarith
  have hneg : Real.log ((9:ℝ)/10) < 0 := by linarith
  show 0 < (⌊-(((512:Nat):ℝ) * 8 / Real.log (9/10) * (Real.log 2 * Real.log 2))⌋).toNat
  have hval : -(((512:Nat):ℝ) * 8 / Real.log (9/10) * (Real.log 2 * Real.log 2)) =
      4096 * (Real.log 2 * Real.log 2) / (-Real.log ((9:ℝ)/10)) := by
    push_cast
    rw [div_mul_eq_mul_div, div_neg]
    ring_nf
  rw [hval]
  have hDpos : (0:ℝ) < -Real.log ((9:ℝ)/10) := by linarith
  have h1 : (1:ℤ) ≤ ⌊4096 * (Real.log 2 * Real.log 2) / (-Real.log ((9:ℝ)/10))⌋ := by
    rw [Int.le_floor, le_div_iff hDpos]
    push_cast
    nlinarith
  omega

/-- The estimate after one stored item in a 512-byte filter is below 0.9. -/
theorem fp_estimate_512_1_lt : calculate_fp_from_capacity_size 512 1 < 9/10 := by
  have hsq1 := log_two_sq_gt
  show Real.exp (-(((512:Nat):ℝ) * 8 / ((1:Nat):ℝ)) * Real.log 2 ^ 2) < 9/10
  have harg : -(((512:Nat):ℝ) * 8 / ((1:Nat):ℝ)) * Real.log 2 ^ 2 ≤ -1 := by
    rw [sq]
    push_cast
    nlinarith
  calc Real.exp (-(((512:Nat):ℝ) * 8 / ((1:Nat):ℝ)) * Real.log 2 ^ 2)
      ≤ Real.exp (-1) := Real.exp_le_exp.2 harg
    _ < 0.3678794412 := Real.exp_neg_one_lt_d9
    _ < 9/10 := by norm_num

/-- The estimated rate is monotone in the stored count (fixed byte size). -/
theorem fp_estimate_mono (bytes n m : Nat) (h1 : 0 < n) (h2 : n ≤ m) :
    calculate_fp_from_capacity_size bytes n ≤
      calculate_fp_from_capacity_size bytes m := by
  show Real.exp _ ≤ Real.exp _
  apply Real.exp_le_exp.2
  have hS : (0:ℝ) ≤ Real.log 2 ^ 2 := sq_nonneg _
  have hdiv : ((bytes:ℕ):ℝ) * 8 / ((m:ℕ):ℝ) ≤ ((bytes:ℕ):ℝ) * 8 / ((n:ℕ):ℝ) := by
    have hn : (0:ℝ) < ((n:ℕ):ℝ) := by exact_mod_cast h1
    have hm : ((n:ℕ):ℝ) ≤ ((m:ℕ):ℝ) := by exact_mod_cast h2
    gcongr
  nlinarith

/-- The estimated rate is strictly monotone in the stored count when the
filter has at least one byte. -/
theorem fp_estimate_strict_mono (bytes n m : Nat) (hb : 0 < bytes) (h1 : 0 < n)
    (h2 : n < m) :
    calculate_fp_from_capacity_size bytes n <
      calculate_fp_from_capacity_size bytes m := by
  show Real.exp _ < Real.exp _
  apply Real.exp_lt_exp.2
  have hsq1 := log_two_sq_gt
  have hS : (0:ℝ) < Real.log 2 ^ 2 := by rw [sq]; linarith
  have hdiv : ((bytes:ℕ):ℝ) * 8 / ((m:ℕ):ℝ) < ((bytes:ℕ):ℝ) * 8 / ((n:ℕ):ℝ) := by
    have hbp : (0:ℝ) < ((bytes:ℕ):ℝ) * 8 := by
      have hbb : (0:ℝ) < ((bytes:ℕ):ℝ) := by exact_mod_cast hb
      linarith
    have hn : (0:ℝ) < ((n:ℕ):ℝ) := by exact_mod_cast h1
    have hm : ((n:ℕ):ℝ) < ((m:ℕ):ℝ) := by exact_mod_cast h2
    gcongr
  nlinarith

end Bloom

namespace Bloom

/- ### Growth trace of a fresh dynamic chain -/

theorem add_capacity {α : Type} (spooky : α → Nat) (f : BloomFilter) (item : α) :
    (f.add spooky item).capacity = f.capacity := rfl

theorem addList_cons {α : Type} (spooky : α → Nat) (f : BloomFilter) (y : α)
    (rest : List α) :
    addList spooky f (y :: rest) = addList spooky (f.add spooky y) rest := rfl

theorem dynAddList_cons {α : Type} (spooky : α → Nat) (d : DynamicBloom) (y : α)
    (rest : List α) :
    dynAddList spooky d (y :: rest) = dynAddList spooky (d.add spooky y) rest := rfl

theorem dynAddList_append {α : Type} (spooky : α → Nat) (d : DynamicBloom)
    (l1 l2 : List α) :
    dynAddList spooky d (l1 ++ l2) = dynAddList spooky (dynAddList spooky d l1) l2 :=
  List.foldl_append ..

theorem dynAdd_no_resize {α : Type} (spooky : α → Nat) (f : BloomFilter) (e : Nat)
    (fp : ℝ) (n : Nat) (x : α) (hst : f.stored_items = n) (hlt : n < f.capacity) :
    DynamicBloom.add spooky ⟨[f], 0, e, fp, n⟩ x =
      ⟨[f.add spooky x], 0, e, fp, n + 1⟩ := by
  rw [add_eq_dynStep]
  have hcond : ¬ ((⟨[f], 0, e, fp, n⟩ : DynamicBloom).get_active.stored ≥
      (⟨[f], 0, e, fp, n⟩ : DynamicBloom).get_active.capacity) := by
    show ¬ (f.stored_items ≥ f.capacity)
    omega
  have hstep : dynStep ⟨[f], 0, e, fp, n⟩ = ⟨[f], 0, e, fp, n⟩ := by
    unfold dynStep
    split
    · unfold DynamicBloom.should_resize
      rw [if_neg hcond]
    · rfl
  rw [hstep]
  rfl

theorem dynAddList_no_resize {α : Type} (spooky : α → Nat) :
    ∀ (items : List α) (f : BloomFilter) (e : Nat) (fp : ℝ) (n : Nat),
      f.stored_items = n → n + items.length ≤ f.capacity →
      dynAddList spooky ⟨[f], 0, e, fp, n⟩ items =
        ⟨[addList spooky f items], 0, e, fp, n + items.length⟩ ∧
      (addList spooky f items).stored_items = n + items.length ∧
      (addList spooky f items).capacity = f.capacity := by
  intro items
  induction items with
  | nil =>
    intro f e fp n h1 h2
    refine ⟨rfl, ?_, rfl⟩
    simpa using h1
  | cons y rest ih =>
    intro f e fp n h1 h2
    have hlt : n < f.capacity := by
      simp only [List.length_cons] at h2
      omega
    have hstep := dynAdd_no_resize spooky f e fp n y h1 hlt
    rw [dynAddList_cons, hstep, addList_cons]
    have hlen2 : (n + 1) + rest.length ≤ (f.add spooky y).capacity := by
      rw [add_capacity]
      simp only [List.length_cons] at h2
      omega
    obtain ⟨ha, hb, hc⟩ := ih (f.add spooky y) e fp (n + 1)
      (by rw [add_stored, h1]) hlen2
    refine ⟨?_, ?_, ?_⟩
    · rw [ha]
      simp only [List.length_cons]
      congr 1
      omega
    · rw [hb]
      simp only [List.length_cons]
      omega
    · rw [hc, add_capacity]

theorem dynAdd_resize_at_capacity {α : Type} (spooky : α → Nat) (f : BloomFilter)
    (e : Nat) (fp : ℝ) (n : Nat) (x : α) (hst : f.stored_items = n)
    (hcap : f.capacity ≤ n) (hthr : e / 10 ≤ n) :
    (DynamicBloom.add spooky ⟨[f], 0, e, fp, n⟩ x).filters.length = 2 := by
  rw [add_eq_dynStep]
  have hcond : (⟨[f], 0, e, fp, n⟩ : DynamicBloom).get_active.stored ≥
      (⟨[f], 0, e, fp, n⟩ : DynamicBloom).get_active.capacity := by
    show f.stored_items ≥ f.capacity
    omega
  have hstep : dynStep ⟨[f], 0, e, fp, n⟩ =
      ⟨[f, BloomFilter.with_fp_size fp e], 1, e, fp, n⟩ := by
    unfold dynStep
    rw [if_pos (show (⟨[f], 0, e, fp, n⟩ : DynamicBloom).inserted ≥ e / 10 from hthr)]
    unfold DynamicBloom.should_resize
    rw [if_pos hcond]
    rfl
  rw [hstep]
  simp only [List.length_set, List.length_cons, List.length_nil]

/- ### Retirement loop of the age-partitioned filter -/

theorem remove_inner {T : Type} (q : BoundedVecDeque T) (i : Nat) :
    (q.remove i).2.inner =
      if i < q.inner.length then q.inner.eraseIdx i else q.inner := by
  unfold BoundedVecDeque.remove
  by_cases h : i < q.inner.length
  · rw [dif_pos h, if_pos h]
  · rw [dif_neg h, if_neg h]

theorem retireLoop_all_eligible (ts : Nat) :
    ∀ (m : Nat) (q : BoundedVecDeque Slice) (a r : Nat),
      (∀ sl ∈ q.inner, sl.timestamp < ts) →
      a + m < q.inner.length →
      ((retireLoop ts (List.range' (a + r) m) q r).1).inner.length =
        q.inner.length - min m ((q.inner.length - (a + r) + 1) / 2) := by
  intro m
  induction m with
  | zero =>
    intro q a r _ _
    simp [retireLoop]
  | succ m ih =>
    intro q a r hel hbound
    have ha_lt : a < q.inner.length := by omega
    have helig : (q.inner.getD (a + r - r) default).timestamp < ts := by
      have har : a + r - r = a := by omega
      rw [har, List.getD_eq_getElem _ _ ha_lt]
      exact hel _ (List.getElem_mem ha_lt)
    rw [List.range'_succ]
    simp only [retireLoop]
    rw [if_pos helig]
    by_cases hsucc : a + r < q.inner.length
    · have hq2 : ((q.remove (a + r)).2).inner = q.inner.eraseIdx (a + r) := by
        rw [remove_inner, if_pos hsucc]
      have hlen2 : ((q.remove (a + r)).2).inner.length = q.inner.length - 1 := by
        rw [hq2]
        have := List.length_eraseIdx_add_one hsucc
        omega
      have hel2 : ∀ sl ∈ ((q.remove (a + r)).2).inner, sl.timestamp < ts := by
        intro sl hsl
        rw [hq2] at hsl
        exact hel sl (List.eraseIdx_subset _ _ hsl)
      have hbound2 : a + m < ((q.remove (a + r)).2).inner.length := by
        rw [hlen2]
        omega
      have hrec := ih ((q.remove (a + r)).2) a (r + 1) hel2 hbound2
      have harr : a + (r + 1) = a + r + 1 := by omega
      rw [harr] at hrec
      rw [hrec, hlen2]
      omega
    · have hq2 : (q.remove (a + r)).2 = q := by
        unfold BoundedVecDeque.remove
        rw [dif_neg hsucc]
      have hrec := ih q a (r + 1) hel (by omega)
      have harr : a + (r + 1) = a + r + 1 := by omega
      rw [harr] at hrec
      rw [hq2, hrec]
      omega

/-- When every slice is stale, one `retire_slices` call removes
`min e (e / 2 + 1)` slices, where `e = num_slices - optimal_slices` is the
excess (not all `e` of them). -/
theorem retire_slices_all_stale (ts : Nat) (f : AgeFilter)
    (hopt : 1 ≤ f.optimal_slices)
    (hnum : f.num_slices = f.slices.inner.length)
    (hge : f.optimal_slices ≤ f.num_slices)
    (hel : ∀ sl ∈ f.slices.inner, sl.timestamp < ts) :
    (f.retire_slices ts).num_slices =
      f.num_slices - min (f.num_slices - f.optimal_slices)
        ((f.num_slices - f.optimal_slices) / 2 + 1) := by
  unfold AgeFilter.retire_slices BoundedVecDeque.len
  dsimp only
  have hm : f.num_slices - 1 - (f.optimal_slices - 1) =
      f.num_slices - f.optimal_slices := by omega
  have hbound : (f.optimal_slices - 1) + (f.num_slices - f.optimal_slices) <
      f.slices.inner.length := by omega
  have hloop := retireLoop_all_eligible ts (f.num_slices - f.optimal_slices) f.slices
    (f.optimal_slices - 1) 0 hel hbound
  rw [Nat.add_zero] at hloop
  rw [hm, hloop, ← hnum]
  omega

/-- When no slice is stale, `retire_slices` leaves the filter unchanged. -/
theorem retire_slices_none_stale (ts : Nat) (f : AgeFilter)
    (hnum : f.num_slices = f.slices.inner.length)
    (hel : ∀ sl ∈ f.slices.inner, ts ≤ sl.timestamp) :
    f.retire_slices ts = f := by
  unfold AgeFilter.retire_slices BoundedVecDeque.len
  have hloop : (retireLoop ts (List.range' (f.optimal_slices - 1)
      (f.num_slices - 1 - (f.optimal_slices - 1))) f.slices 0).1 = f.slices := by
    cases hm : f.num_slices - 1 - (f.optimal_slices - 1) with
    | zero => rfl
    | succ m =>
      rw [List.range'_succ]
      simp only [retireLoop]
      rw [if_neg]
      intro hcon
      have hin : f.optimal_slices - 1 - 0 < f.slices.inner.length := by omega
      rw [List.getD_eq_getElem _ _ hin] at hcon
      have := hel _ (List.getElem_mem hin)
      omega
  show ({ f with
    slices := (retireLoop ts (List.range' (f.optimal_slices - 1)
      (f.num_slices - 1 - (f.optimal_slices - 1))) f.slices 0).1
    num_slices := (retireLoop ts (List.range' (f.optimal_slices - 1)
      (f.num_slices - 1 - (f.optimal_slices - 1))) f.slices 0).1.inner.length } :
      AgeFilter) = f
  rw [hloop, ← hnum]

/- ### Re-adding an item sets no new bits -/

theorem add_add_array {α : Type} (spooky : α → Nat) (f : BloomFilter) (x : α) :
    ((f.add spooky x).add spooky x).array = (f.add spooky x).array := by
  rw [add_array, bitIndices_congr spooky (f.add spooky x) f x (add_k spooky f x)
    (add_length spooky f x), add_array]
  exact setBits_setBits _ _

end Bloom

namespace Bloom

theorem add_size {α : Type} (spooky : α → Nat) (f : BloomFilter) (item : α) :
    (f.add spooky item).size = f.size := rfl

theorem dynAddList_expected {α : Type} (spooky : α → Nat) :
    ∀ (items : List α) (d : DynamicBloom),
      (dynAddList spooky d items).expected = d.expected := by
  intro items
  induction items with
  | nil => intro d; rfl
  | cons y rest ih =>
    intro d
    rw [dynAddList_cons, ih, add_eq_dynStep]
    rcases dynStep_cases d with hc | hc <;> rw [hc]

theorem goodChain_mk_new (e : Nat) (fp : ℝ)
    (h : 0 < (BloomFilter.with_fp_size fp e).array.length) :
    GoodChain (DynamicBloom.mk_new e fp) := by
  refine ⟨?_, h, Nat.one_pos⟩
  intro g hg
  have hg2 : g = BloomFilter.with_fp_size fp e := List.mem_singleton.1 hg
  rw [hg2]
  exact h

end Bloom

namespace Bloom

/- ### HASH_PRIME is the largest prime below 2^64 -/

set_option maxRecDepth 10000

/-- Fuel-bounded fast modular exponentiation, used to check the Lucas
certificates by kernel computation. -/
def powMod : Nat → Nat → Nat → Nat → Nat
  | 0, m, _, _ => 1 % m
  | fuel + 1, m, a, n =>
    if n = 0 then 1 % m
    else
      let r := powMod fuel m (a * a % m) (n / 2)
      if n % 2 = 1 then r * a % m else r

theorem powMod_eq : ∀ (fuel m a n : Nat), 0 < m → n < 2 ^ fuel →
    powMod fuel m a n = a ^ n % m := by
  intro fuel
  induction fuel with
  | zero =>
    intro m a n hm hn
    have h0 : n = 0 := by simpa using hn
    subst h0
    simp [powMod]
  | succ fuel ih =>
    intro m a n hm hn
    by_cases h0 : n = 0
    · subst h0
      simp [powMod]
    · have h2p : 2 ^ (fuel + 1) = 2 * 2 ^ fuel := by
        rw [Nat.pow_succ]
        ring
      have hdiv : n / 2 < 2 ^ fuel := by omega
      have hr := ih m (a * a % m) (n / 2) hm hdiv
      simp only [powMod, if_neg h0]
      rw [hr]
      have hpow : (a * a % m) ^ (n / 2) % m = (a * a) ^ (n / 2) % m := by
        rw [← Nat.pow_mod]
      have hsplit : (a * a) ^ (n / 2) * a ^ (n % 2) = a ^ n := by
        rw [← pow_two, ← pow_mul, ← pow_add, Nat.div_add_mod]
      by_cases hodd : n % 2 = 1
      · rw [if_pos hodd, hpow, Nat.mod_mul_mod, ← hsplit, hodd, pow_one]
      · rw [if_neg hodd, hpow, ← hsplit]
        have hz : n % 2 = 0 := by omega
        rw [hz, pow_zero, mul_one]

theorem powMod_ne_one (m a e : Nat) (hm : 1 < m) (he : e < 2 ^ 64)
    (hne : powMod 64 m a e ≠ 1) :
    ((a : ℕ) : ZMod m) ^ e ≠ 1 := by
  intro hcon
  apply hne
  haveI : NeZero m := ⟨by omega⟩
  haveI : Fact (1 < m) := ⟨hm⟩
  have hlt : powMod 64 m a e < m := by
    rw [powMod_eq 64 m a e (by omega) he]
    exact Nat.mod_lt _ (by omega)
  have hcast : ((powMod 64 m a e : ℕ) : ZMod m) = 1 := by
    rw [powMod_eq 64 m a e (by omega) he, ZMod.natCast_mod, Nat.cast_pow, hcon]
  have hval := ZMod.val_cast_of_lt hlt
  rw [hcast, ZMod.val_one] at hval
  exact hval.symm

theorem powMod_eq_one (m a e : Nat) (hm : 0 < m) (he : e < 2 ^ 64)
    (h1 : powMod 64 m a e = 1 % m) :
    ((a : ℕ) : ZMod m) ^ e = 1 := by
  have hv := powMod_eq 64 m a e hm he
  rw [h1] at hv
  have hcast : ((a ^ e % m : ℕ) : ZMod m) = ((1 % m : ℕ) : ZMod m) := by
    rw [← hv]
  rw [ZMod.natCast_mod, ZMod.natCast_mod, Nat.cast_pow, Nat.cast_one] at hcast
  exact hcast

theorem prime_5594472617641 : Nat.Prime 5594472617641 := by
  apply lucas_primality _ ((13 : ℕ) : ZMod 5594472617641)
  · exact powMod_eq_one _ _ _ (by norm_num) (by decide) (by decide)
  · intro q hq hdvd
    have hd2 : q ∣ 5594472617640 := by
      simpa using hdvd
    rw [show (5594472617640 : ℕ) = 2 ^ 3 * (3 * (5 * (1427 * (2131 * 15331))))
      from by norm_num] at hd2
    have hset : q = 2 ∨ q = 3 ∨ q = 5 ∨ q = 1427 ∨ q = 2131 ∨ q = 15331 := by
      rcases (hq.dvd_mul).1 hd2 with h | h
      · exact Or.inl ((Nat.prime_dvd_prime_iff_eq hq (by norm_num)).1
          (hq.dvd_of_dvd_pow h))
      rcases (hq.dvd_mul).1 h with h | h
      · exact Or.inr (Or.inl ((Nat.prime_dvd_prime_iff_eq hq (by norm_num)).1 h))
      rcases (hq.dvd_mul).1 h with h | h
      · exact Or.inr (Or.inr (Or.inl
          ((Nat.prime_dvd_prime_iff_eq hq (by norm_num)).1 h)))
      rcases (hq.dvd_mul).1 h with h | h
      · exact Or.inr (Or.inr (Or.inr (Or.inl
          ((Nat.prime_dvd_prime_iff_eq hq (by norm_num)).1 h))))
      rcases (hq.dvd_mul).1 h with h | h
      · exact Or.inr (Or.inr (Or.inr (Or.inr (Or.inl
          ((Nat.prime_dvd_prime_iff_eq hq (by norm_num)).1 h)))))
      · exact Or.inr (Or.inr (Or.inr (Or.inr (Or.inr
          ((Nat.prime_dvd_prime_iff_eq hq (by norm_num)).1 h)))))
    rcases hset with rfl | rfl | rfl | rfl | rfl | rfl <;>
      exact powMod_ne_one _ _ _ (by norm_num) (by decide) (by decide)

theorem prime_hash_prime : Nat.Prime 18446744073709551557 := by
  apply lucas_primality _ ((2 : ℕ) : ZMod 18446744073709551557)
  · exact powMod_eq_one _ _ _ (by norm_num) (by decide) (by decide)
  · intro q hq hdvd
    have hd2 : q ∣ 18446744073709551556 := by
      simpa using hdvd
    rw [show (18446744073709551556 : ℕ) =
      2 ^ 2 * (11 * (137 * (547 * 5594472617641))) from by norm_num] at hd2
    have hset : q = 2 ∨ q = 11 ∨ q = 137 ∨ q = 547 ∨ q = 5594472617641 := by
      rcases (hq.dvd_mul).1 hd2 with h | h
      · exact Or.inl ((Nat.prime_dvd_prime_iff_eq hq (by norm_num)).1
          (hq.dvd_of_dvd_pow h))
      rcases (hq.dvd_mul).1 h with h | h
      · exact Or.inr (Or.inl ((Nat.prime_dvd_prime_iff_eq hq (by norm_num)).1 h))
      rcases (hq.dvd_mul).1 h with h | h
      · exact Or.inr (Or.inr (Or.inl
          ((Nat.prime_dvd_prime_iff_eq hq (by norm_num)).1 h)))
      rcases (hq.dvd_mul).1 h with h | h
      · exact Or.inr (Or.inr (Or.inr (Or.inl
          ((Nat.prime_dvd_prime_iff_eq hq (by norm_num)).1 h))))
      · exact Or.inr (Or.inr (Or.inr (Or.inr
          ((Nat.prime_dvd_prime_iff_eq hq prime_5594472617641).1 h))))
    rcases hset with rfl | rfl | rfl | rfl | rfl <;>
      exact powMod_ne_one _ _ _ (by norm_num) (by decide) (by decide)

/-- HASH_PRIME = 2^64 - 59 is prime, and no larger number below 2^64 is. -/
theorem hash_prime_largest :
    Nat.Prime HASH_PRIME ∧
    ∀ m : Nat, HASH_PRIME < m → m < 2 ^ 64 → ¬ m.Prime := by
  constructor
  · exact prime_hash_prime
  · intro m h1 h2 hp
    have h1b : 18446744073709551557 < m := h1
    have h2b : m < 18446744073709551616 := by
      have hh : (2 : ℕ) ^ 64 = 18446744073709551616 := by norm_num
      rw [hh] at h2
      exact h2
    rcases Nat.even_or_odd m with he | ho
    · obtain ⟨r, hr⟩ := he
      have hdvd : (2 : ℕ) ∣ m := ⟨r, by omega⟩
      have h3 := hp.eq_one_or_self_of_dvd 2 hdvd
      omega
    · obtain ⟨t, ht⟩ := ho
      have hcases : m = 18446744073709551615 ∨
      m = 18446744073709551613 ∨
      m = 18446744073709551611 ∨
      m = 18446744073709551609 ∨
      m = 18446744073709551607 ∨
      m = 18446744073709551605 ∨
      m = 18446744073709551603 ∨
      m = 18446744073709551601 ∨
      m = 18446744073709551599 ∨
      m = 18446744073709551597 ∨
      m = 18446744073709551595 ∨
      m = 18446744073709551593 ∨
      m = 18446744073709551591 ∨
      m = 18446744073709551589 ∨
      m = 18446744073709551587 ∨
      m = 18446744073709551585 ∨
      m = 18446744073709551583 ∨
      m = 18446744073709551581 ∨
      m = 18446744073709551579 ∨
      m = 18446744073709551577 ∨
      m = 18446744073709551575 ∨
      m = 18446744073709551573 ∨
      m = 18446744073709551571 ∨
      m = 18446744073709551569 ∨
      m = 18446744073709551567 ∨
      m = 18446744073709551565 ∨
      m = 18446744073709551563 ∨
      m = 18446744073709551561 ∨
      m = 18446744073709551559 := by omega
      rcases hcases with rfl | rfl | rfl | rfl | rfl | rfl | rfl | rfl | rfl | rfl | rfl | rfl | rfl | rfl | rfl | rfl | rfl | rfl | rfl | rfl | rfl | rfl | rfl | rfl | rfl | rfl | rfl | rfl | rfl
      · exact absurd hp (by
          rw [show (18446744073709551615 : ℕ) = 3 * 6148914691236517205 from by norm_num]
          exact Nat.not_prime_mul (by norm_num) (by norm_num))
      · exact absurd hp (by
          rw [show (18446744073709551613 : ℕ) = 13 * 1418980313362273201 from by norm_num]
          exact Nat.not_prime_mul (by norm_num) (by norm_num))
      · exact absurd hp (by
          rw [show (18446744073709551611 : ℕ) = 11 * 1676976733973595601 from by norm_num]
          exact Nat.not_prime_mul (by norm_num) (by norm_num))
      · exact absurd hp (by
          rw [show (18446744073709551609 : ℕ) = 3 * 6148914691236517203 from by norm_num]
          exact Nat.not_prime_mul (by norm_num) (by norm_num))
      · exact absurd hp (by
          rw [show (18446744073709551607 : ℕ) = 7 * 2635249153387078801 from by norm_num]
          exact Nat.not_prime_mul (by norm_num) (by norm_num))
      · exact absurd hp (by
          rw [show (18446744073709551605 : ℕ) = 5 * 3689348814741910321 from by norm_num]
          exact Nat.not_prime_mul (by norm_num) (by norm_num))
      · exact absurd hp (by
          rw [show (18446744073709551603 : ℕ) = 3 * 6148914691236517201 from by norm_num]
          exact Nat.not_prime_mul (by norm_num) (by norm_num))
      · exact absurd hp (by
          rw [show (18446744073709551601 : ℕ) = 53 * 348051774975651917 from by norm_num]
          exact Nat.not_prime_mul (by norm_num) (by norm_num))
      · exact absurd hp (by
          rw [show (18446744073709551599 : ℕ) = 19 * 970881267037344821 from by norm_num]
          exact Nat.not_prime_mul (by norm_num) (by norm_num))
      · exact absurd hp (by
          rw [show (18446744073709551597 : ℕ) = 3 * 6148914691236517199 from by norm_num]
          exact Nat.not_prime_mul (by norm_num) (by norm_num))
      · exact absurd hp (by
          rw [show (18446744073709551595 : ℕ) = 5 * 3689348814741910319 from by norm_num]
          exact Nat.not_prime_mul (by norm_num) (by norm_num))
      · exact absurd hp (by
          rw [show (18446744073709551593 : ℕ) = 7 * 2635249153387078799 from by norm_num]
          exact Nat.not_prime_mul (by norm_num) (by norm_num))
      · exact absurd hp (by
          rw [show (18446744073709551591 : ℕ) = 3 * 6148914691236517197 from by norm_num]
          exact Nat.not_prime_mul (by norm_num) (by norm_num))
      · exact absurd hp (by
          rw [show (18446744073709551589 : ℕ) = 11 * 1676976733973595599 from by norm_num]
          exact Nat.not_prime_mul (by norm_num) (by norm_num))
      · exact absurd hp (by
          rw [show (18446744073709551587 : ℕ) = 13 * 1418980313362273199 from by norm_num]
          exact Nat.not_prime_mul (by norm_num) (by norm_num))
      · exact absurd hp (by
          rw [show (18446744073709551585 : ℕ) = 3 * 6148914691236517195 from by norm_num]
          exact Nat.not_prime_mul (by norm_num) (by norm_num))
      · exact absurd hp (by
          rw [show (18446744073709551583 : ℕ) = 827 * 22305615566758829 from by norm_num]
          exact Nat.not_prime_mul (by norm_num) (by norm_num))
      · exact absurd hp (by
          rw [show (18446744073709551581 : ℕ) = 17 * 1085102592571150093 from by norm_num]
          exact Nat.not_prime_mul (by norm_num) (by norm_num))
      · exact absurd hp (by
          rw [show (18446744073709551579 : ℕ) = 3 * 6148914691236517193 from by norm_num]
          exact Nat.not_prime_mul (by norm_num) (by norm_num))
      · exact absurd hp (by
          rw [show (18446744073709551577 : ℕ) = 139646831 * 132095686967 from by norm_num]
          exact Nat.not_prime_mul (by norm_num) (by norm_num))
      · exact absurd hp (by
          rw [show (18446744073709551575 : ℕ) = 5 * 3689348814741910315 from by norm_num]
          exact Nat.not_prime_mul (by norm_num) (by norm_num))
      · exact absurd hp (by
          rw [show (18446744073709551573 : ℕ) = 3 * 6148914691236517191 from by norm_num]
          exact Nat.not_prime_mul (by norm_num) (by norm_num))
      · exact absurd hp (by
          rw [show (18446744073709551571 : ℕ) = 11071 * 1666222028155501 from by norm_num]
          exact Nat.not_prime_mul (by norm_num) (by norm_num))
      · exact absurd hp (by
          rw [show (18446744073709551569 : ℕ) = 31 * 595056260442243599 from by norm_num]
          exact Nat.not_prime_mul (by norm_num) (by norm_num))
      · exact absurd hp (by
          rw [show (18446744073709551567 : ℕ) = 3 * 6148914691236517189 from by norm_num]
          exact Nat.not_prime_mul (by norm_num) (by norm_num))
      · exact absurd hp (by
          rw [show (18446744073709551565 : ℕ) = 5 * 3689348814741910313 from by norm_num]
          exact Nat.not_prime_mul (by norm_num) (by norm_num))
      · exact absurd hp (by
          rw [show (18446744073709551563 : ℕ) = 29 * 636094623231363847 from by norm_num]
          exact Nat.not_prime_mul (by norm_num) (by norm_num))
      · exact absurd hp (by
          rw [show (18446744073709551561 : ℕ) = 3 * 6148914691236517187 from by norm_num]
          exact Nat.not_prime_mul (by norm_num) (by norm_num))
      · exact absurd hp (by
          rw [show (18446744073709551559 : ℕ) = 41 * 449920587163647599 from by norm_num]
          exact Nat.not_prime_mul (by norm_num) (by norm_num))

end Bloom

namespace Bloom

/- ### Claim theorems -/

/-- C1: for every item x, after add(x) on a plain BloomFilter (with its
nonempty bit array, as the constructor asserts) or on a well-formed
DynamicBloom chain, every subsequent get(x) returns true regardless of how
many further items are added afterwards — no false negatives. -/
theorem C1_no_false_negatives {α : Type} (spooky : α → Nat) (x : α) (ys : List α) :
    (∀ f : BloomFilter, 0 < f.array.length →
      (addList spooky (f.add spooky x) ys).get spooky x = true) ∧
    (∀ d : DynamicBloom, GoodChain d →
      (dynAddList spooky (d.add spooky x) ys).get spooky x = true) := by
  constructor
  · intro f h
    exact addList_get_mono spooky x ys _ (add_get_same spooky f x h)
  · intro d h
    exact dynAddList_get_mono spooky x ys _ (dget_add_same spooky d x h)

/-- Witness for C1: a concrete 8-bit filter and a fresh dynamic chain built
with fp = 0.05, expected = 16; item 5 added, then 7 and 8; 5 is still found. -/
theorem C1_no_false_negatives_witness :
    0 < (⟨List.replicate 8 false, 1, 2, 3, 0, 0⟩ : BloomFilter).array.length ∧
    GoodChain (DynamicBloom.mk_new 16 (1/20)) ∧
    (addList (fun n : Nat => n + 3)
      ((⟨List.replicate 8 false, 1, 2, 3, 0, 0⟩ : BloomFilter).add
        (fun n : Nat => n + 3) 5) [7, 8]).get (fun n : Nat => n + 3) 5 = true ∧
    (dynAddList (fun n : Nat => n + 3)
      ((DynamicBloom.mk_new 16 (1/20)).add (fun n : Nat => n + 3) 5) [7, 8]).get
      (fun n : Nat => n + 3) 5 = true := by
  have hgc : GoodChain (DynamicBloom.mk_new 16 (1/20)) :=
    goodChain_mk_new 16 (1/20) (by rw [with_fp_size_005_16_len]; norm_num)
  refine ⟨by decide, hgc, ?_, ?_⟩
  · exact (C1_no_false_negatives (fun n : Nat => n + 3) 5 [7, 8]).1 _ (by decide)
  · exact (C1_no_false_negatives (fun n : Nat => n + 3) 5 [7, 8]).2 _ hgc

/-- C5 (code evidence for the code_bug): compute_hashes derives BOTH 128-bit
base hashes by calling _spooky_hash on the item (src/src/lib.rs:144 and
148) — _mmr3_hash is never called — so for every hash function and every
item the two base hashes coincide and the four base values collapse to
[h_lo, h_hi, h_lo, h_hi].  No item can produce two differing 128-bit base
hashes, contradicting the claimed use of two distinct, unrelated hash
algorithms. -/
theorem C5_same_hash_twice {α : Type} (spooky : α → Nat) (k : Nat) (item : α) :
    (compute_hashes spooky k item).getD 0 0 =
      (compute_hashes spooky k item).getD 2 0 ∧
    (compute_hashes spooky k item).getD 1 0 =
      (compute_hashes spooky k item).getD 3 0 := by
  obtain ⟨h0, h1, h2, h3⟩ := compute_hashes_base spooky k item
  exact ⟨by rw [h0, h2], by rw [h1, h3]⟩

/-- C6: HASH_PRIME is the constant 0xffffffffffffffc5, which is prime and is
the largest prime below 2^64 (last two conjuncts, via a verified Lucas
certificate); for every k and every pass i with 4 ≤ i < k, the additional
hash value equals h1_hi + (h2_hi * i mod 2^64) mod HASH_PRIME, in the u64
(mod 2^64) arithmetic of the source's wrapping operations, where h1 and h2
are the two 128-bit base hashes of the item (both obtained from
_spooky_hash, cf. C5); and add writes exactly the bits at index
hashValue[i] mod totalBits while get reads exactly those bits. -/
theorem C6_extended_double_hashing {α : Type} (spooky : α → Nat) (f : BloomFilter)
    (k i : Nat) (item : α) (h4 : 4 ≤ i) (hik : i < k) :
    HASH_PRIME = 0xffffffffffffffc5 ∧
    (compute_hashes spooky k item).getD i 0 =
      (hi64 (spooky item % U128) +
        hi64 (spooky item % U128) * i % U64 % HASH_PRIME) % U64 ∧
    (f.add spooky item).array = setBits f.array
      ((List.range f.k).map
        (fun idx => (compute_hashes spooky f.k item).getD idx 0 % f.array.length)) ∧
    f.get spooky item =
      ((List.range f.k).map
        (fun idx => (compute_hashes spooky f.k item).getD idx 0 % f.array.length)).all
        (fun p => f.array.getD p false) ∧
    Nat.Prime HASH_PRIME ∧
    (∀ m : Nat, HASH_PRIME < m → m < 2 ^ 64 → ¬ m.Prime) :=
  ⟨rfl, compute_hashes_getD_extra spooky k item i h4 hik,
    add_array spooky f item, get_eq_all spooky f item,
    hash_prime_largest.1, hash_prime_largest.2⟩

/-- Witness for C6 at k = 6, i = 4 and 5, a concrete hash value and filter. -/
theorem C6_extended_double_hashing_witness :
    (compute_hashes (fun n : Nat => n * 2 ^ 70 + 11) 6 9).getD 4 0 =
      (hi64 ((9 * 2 ^ 70 + 11) % U128) +
        hi64 ((9 * 2 ^ 70 + 11) % U128) * 4 % U64 % HASH_PRIME) % U64 ∧
    ((⟨List.replicate 16 false, 2, 6, 3, 0, 0⟩ : BloomFilter).add
        (fun n : Nat => n * 2 ^ 70 + 11) 9).array =
      setBits (List.replicate 16 false)
        ((List.range 6).map
          (fun idx => (compute_hashes (fun n : Nat => n * 2 ^ 70 + 11) 6 9).getD idx 0 % 16)) := by
  constructor
  · exact (C6_extended_double_hashing (fun n : Nat => n * 2 ^ 70 + 11)
      (⟨List.replicate 16 false, 2, 6, 3, 0, 0⟩ : BloomFilter) 6 4 9
      (by decide) (by decide)).1.symm ▸
      (C6_extended_double_hashing (fun n : Nat => n * 2 ^ 70 + 11)
        (⟨List.replicate 16 false, 2, 6, 3, 0, 0⟩ : BloomFilter) 6 4 9
        (by decide) (by decide)).2.1
  · exact (C6_extended_double_hashing (fun n : Nat => n * 2 ^ 70 + 11)
      (⟨List.replicate 16 false, 2, 6, 3, 0, 0⟩ : BloomFilter) 6 4 9
      (by decide) (by decide)).2.2.1

/-- C7: the four parameter-calculator regression equalities, with the
source's rounding rules (round for k, floor for capacity, ceil twice for
size, round of the scaled estimate). -/
theorem C7_parameter_regression :
    calculate_k 512 5000 = 1 ∧
    calculate_capacity_from_fp_size (1/100) 512 = 427 ∧
    round (calculate_fp_from_capacity_size 512 5000 * 1000000) = 674633 ∧
    calculate_size_from_fp_capacity (1/1000) 5000 = 8986 :=
  ⟨calc_k_512_5000, calc_capacity_001_512, calc_fp_512_5000, calc_size_0001_5000⟩

/-- C10: every add increments stored_items by exactly one even when the item
was already added (re-adding sets no new bits: the array is unchanged), so
stored_items counts invocations; and once at least one item is stored in a
filter with a nonzero byte size, the estimate returned by fp() strictly
grows with each repeated insertion. -/
theorem C10_stored_counts_invocations {α : Type} (spooky : α → Nat)
    (f : BloomFilter) (x : α) :
    ((f.add spooky x).stored_items = f.stored_items + 1) ∧
    (((f.add spooky x).add spooky x).array = (f.add spooky x).array) ∧
    (((f.add spooky x).add spooky x).stored_items = f.stored_items + 2) ∧
    (1 ≤ f.stored_items → 0 < f.size →
      f.fp_current < (f.add spooky x).fp_current) := by
  refine ⟨rfl, add_add_array spooky f x, rfl, ?_⟩
  intro h1 h2
  rw [BloomFilter.fp_current, BloomFilter.fp_current, if_neg (by omega),
    if_neg (by rw [add_stored]; omega), add_stored, add_size]
  exact fp_estimate_strict_mono f.size f.stored_items (f.stored_items + 1) h2 h1
    (by omega)

/-- Witness for C10 at a concrete 1-byte filter that already stores one
item. -/
theorem C10_stored_counts_invocations_witness :
    (⟨List.replicate 8 false, 1, 2, 3, 1, 1/2⟩ : BloomFilter).fp_current <
      ((⟨List.replicate 8 false, 1, 2, 3, 1, 1/2⟩ : BloomFilter).add
        (fun n : Nat => n) 0).fp_current :=
  (C10_stored_counts_invocations (fun n : Nat => n)
    (⟨List.replicate 8 false, 1, 2, 3, 1, 1/2⟩ : BloomFilter) 0).2.2.2
    (Nat.le_refl 1) Nat.one_pos

end Bloom

namespace Bloom

/-- C2: extend merges by concatenation: for chains built with the same
expected capacity (partition arrays nonempty, as construction guarantees),
extend succeeds and every item previously added to either chain is reported
present by the merged chain; chains whose configured expected capacities
differ make extend report the error (the source assert, modelled as none)
instead of silently merging. -/
theorem C2_extend_union {α : Type} (spooky : α → Nat) (e : Nat) (fpa fpb : ℝ)
    (xs ys : List α) (x : α)
    (ha : 0 < (BloomFilter.with_fp_size fpa e).array.length)
    (hb : 0 < (BloomFilter.with_fp_size fpb e).array.length)
    (hx : x ∈ xs ∨ x ∈ ys) :
    (∃ c, (dynAddList spooky (DynamicBloom.mk_new e fpa) xs).extend
        (dynAddList spooky (DynamicBloom.mk_new e fpb) ys) = some c ∧
      c.get spooky x = true) ∧
    (∀ a b : DynamicBloom, a.expected ≠ b.expected → a.extend b = none) := by
  constructor
  · have hae : (dynAddList spooky (DynamicBloom.mk_new e fpa) xs).expected = e :=
      dynAddList_expected spooky xs _
    have hbe : (dynAddList spooky (DynamicBloom.mk_new e fpb) ys).expected = e :=
      dynAddList_expected spooky ys _
    refine ⟨{ dynAddList spooky (DynamicBloom.mk_new e fpa) xs with
        filters := (dynAddList spooky (DynamicBloom.mk_new e fpa) xs).filters ++
          (dynAddList spooky (DynamicBloom.mk_new e fpb) ys).filters }, ?_, ?_⟩
    · unfold DynamicBloom.extend
      rw [if_pos (by rw [hae, hbe])]
    · show ((dynAddList spooky (DynamicBloom.mk_new e fpa) xs).filters ++
        (dynAddList spooky (DynamicBloom.mk_new e fpb) ys).filters).any
          (fun g => g.get spooky x) = true
      rw [List.any_append, Bool.or_eq_true]
      rcases hx with hx | hx
      · exact Or.inl (dyn_mem_get spooky x xs _ hx (goodChain_mk_new e fpa ha))
      · exact Or.inr (dyn_mem_get spooky x ys _ hx (goodChain_mk_new e fpb hb))
  · intro a b hne
    unfold DynamicBloom.extend
    rw [if_neg hne]

/-- Witness for C2: chains with expected = 16 and fp = 0.05 holding items 0
and 1; after the merge item 0 is found; and extending chains with expected
16 and 14 reports the error. -/
theorem C2_extend_union_witness :
    (∃ c, (dynAddList (fun n : Nat => n) (DynamicBloom.mk_new 16 (1/20)) [0]).extend
        (dynAddList (fun n : Nat => n) (DynamicBloom.mk_new 16 (1/20)) [1]) = some c ∧
      c.get (fun n : Nat => n) 0 = true) ∧
    (DynamicBloom.mk_new 16 (1/20)).extend (DynamicBloom.mk_new 14 (1/20)) = none := by
  have h104 : 0 < (BloomFilter.with_fp_size (1/20) 16).array.length := by
    rw [with_fp_size_005_16_len]
    norm_num
  have hmain := C2_extend_union (fun n : Nat => n) 16 (1/20) (1/20) [0] [1] 0 h104
    h104 (Or.inl (List.mem_singleton.2 rfl))
  exact ⟨hmain.1, hmain.2 _ _ (by decide)⟩

/-- C3: a DynamicBloom built with expected = 16 (and the test configuration
fp = 0.05, for which the derived per-partition capacity is exactly 16) has
exactly one partition after construction; after inserting 17 items it has
exactly two partitions, and get finds every one of the 17 items, those that
landed in the first partition as well as those in the second. -/
theorem C3_scaling_growth {α : Type} (spooky : α → Nat) (items : List α)
    (hlen : items.length = 17) :
    (DynamicBloom.mk_new 16 (1/20)).filters.length = 1 ∧
    (dynAddList spooky (DynamicBloom.mk_new 16 (1/20)) items).filters.length = 2 ∧
    ∀ x ∈ items,
      (dynAddList spooky (DynamicBloom.mk_new 16 (1/20)) items).get spooky x = true := by
  obtain ⟨harr, hcap, hstored, hsize⟩ := with_fp_size_005_16
  have hlen104 : 0 < (BloomFilter.with_fp_size (1/20) 16).array.length := by
    rw [with_fp_size_005_16_len]
    norm_num
  refine ⟨rfl, ?_, ?_⟩
  · have hne : items ≠ [] := by
      intro h
      rw [h] at hlen
      exact absurd hlen (by norm_num)
    have hsplit := List.dropLast_append_getLast hne
    have hpre : items.dropLast.length = 16 := by
      rw [List.length_dropLast, hlen]
    rw [← hsplit, dynAddList_append]
    have hmk : DynamicBloom.mk_new 16 (1/20) =
        ⟨[BloomFilter.with_fp_size (1/20) 16], 0, 16, 1/20, 0⟩ := rfl
    rw [hmk]
    obtain ⟨hres, hstored2, hcap2⟩ := dynAddList_no_resize spooky items.dropLast
      (BloomFilter.with_fp_size (1/20) 16) 16 (1/20) 0 hstored
      (by rw [hcap, hpre])
    rw [hres]
    have hone : dynAddList spooky
        (⟨[addList spooky (BloomFilter.with_fp_size (1/20) 16) items.dropLast], 0,
          16, 1/20, 0 + items.dropLast.length⟩ : DynamicBloom)
        [items.getLast hne] =
        DynamicBloom.add spooky
          ⟨[addList spooky (BloomFilter.with_fp_size (1/20) 16) items.dropLast], 0,
            16, 1/20, 0 + items.dropLast.length⟩ (items.getLast hne) := rfl
    rw [hone]
    apply dynAdd_resize_at_capacity spooky _ 16 (1/20) _ _ hstored2
    · rw [hcap2, hcap, hpre]
    · rw [hpre]
      omega

  · intro x hx
    exact dyn_mem_get spooky x items _ hx (goodChain_mk_new 16 (1/20) hlen104)

/-- Witness for C3 with the 17 items 0..16 and the identity hash. -/
theorem C3_scaling_growth_witness :
    (DynamicBloom.mk_new 16 (1/20)).filters.length = 1 ∧
    (dynAddList (fun n : Nat => n) (DynamicBloom.mk_new 16 (1/20))
      (List.range 17)).filters.length = 2 :=
  ⟨(C3_scaling_growth (fun n : Nat => n) (List.range 17) (by decide)).1,
   (C3_scaling_growth (fun n : Nat => n) (List.range 17) (by decide)).2.1⟩

end Bloom

namespace Bloom

/-- C4 counterexample: fp() is NOT non-decreasing across every add: a valid
512-byte filter configured with rate 0.9 (its capacity assert holds)
reports 0.9 before any insertion, and after the very first add reports the
estimate, which is strictly below 0.9. -/
theorem C4_counterexample :
    0 < (BloomFilter.with_parameters 512 1 (9/10)).capacity ∧
    (BloomFilter.with_parameters 512 1 (9/10)).fp_current = 9/10 ∧
    ((BloomFilter.with_parameters 512 1 (9/10)).add (fun n : Nat => n) 0).fp_current <
      (BloomFilter.with_parameters 512 1 (9/10)).fp_current := by
  refine ⟨capacity_910_512_pos, ?_, ?_⟩
  · rw [BloomFilter.fp_current,
      if_pos (show (BloomFilter.with_parameters 512 1 (9/10)).stored_items = 0 from rfl)]
    rfl
  · rw [BloomFilter.fp_current, BloomFilter.fp_current,
      if_neg (by rw [add_stored]; omega),
      if_pos (show (BloomFilter.with_parameters 512 1 (9/10)).stored_items = 0 from rfl),
      add_stored, add_size]
    show calculate_fp_from_capacity_size 512 (0 + 1) < 9/10
    exact fp_estimate_512_1_lt

/-- C4 amended: fp() returns the configured rate while stored_items = 0 and
the estimate computed from (size_bytes, stored_items) afterwards; across
successive add calls the returned value is non-decreasing ONCE at least one
item is stored — across the very first add it can decrease (see the
counterexample). -/
theorem C4_fp_behaviour {α : Type} (spooky : α → Nat) (f : BloomFilter) (x : α) :
    (f.stored_items = 0 → f.fp_current = f.fp) ∧
    (f.stored_items ≠ 0 →
      f.fp_current = calculate_fp_from_capacity_size f.size f.stored_items) ∧
    (1 ≤ f.stored_items → f.fp_current ≤ (f.add spooky x).fp_current) := by
  refine ⟨fun h => by rw [BloomFilter.fp_current, if_pos h],
    fun h => by rw [BloomFilter.fp_current, if_neg h], ?_⟩
  intro h1
  rw [BloomFilter.fp_current, BloomFilter.fp_current, if_neg (by omega),
    if_neg (by rw [add_stored]; omega), add_stored, add_size]
  exact fp_estimate_mono f.size f.stored_items (f.stored_items + 1) (by omega)
    (by omega)

/-- Witness for C4 (amended): a fresh filter reports its configured rate,
and a filter holding one item reports a value that does not decrease at the
next add. -/
theorem C4_fp_behaviour_witness :
    (⟨List.replicate 8 false, 1, 2, 3, 0, 1/2⟩ : BloomFilter).fp_current = 1/2 ∧
    (⟨List.replicate 8 false, 1, 2, 3, 1, 1/2⟩ : BloomFilter).fp_current ≤
      ((⟨List.replicate 8 false, 1, 2, 3, 1, 1/2⟩ : BloomFilter).add
        (fun n : Nat => n) 0).fp_current :=
  ⟨(C4_fp_behaviour (fun n : Nat => n)
      (⟨List.replicate 8 false, 1, 2, 3, 0, 1/2⟩ : BloomFilter) 0).1 rfl,
   (C4_fp_behaviour (fun n : Nat => n)
      (⟨List.replicate 8 false, 1, 2, 3, 1, 1/2⟩ : BloomFilter) 0).2.2 (Nat.le_refl 1)⟩

/-- C9 counterexample: extend appends the other chain's partitions but does
not update active_idx, so after extending a fresh chain by a fresh chain the
chain has 2 partitions while active_idx is still 0 — not the last index. -/
theorem C9_counterexample :
    ((DynamicBloom.mk_new 16 (1/2)).extend (DynamicBloom.mk_new 16 (1/2))).isSome =
      true ∧
    (((DynamicBloom.mk_new 16 (1/2)).extend (DynamicBloom.mk_new 16 (1/2))).getD
      (DynamicBloom.mk_new 16 (1/2))).filters.length = 2 ∧
    (((DynamicBloom.mk_new 16 (1/2)).extend (DynamicBloom.mk_new 16 (1/2))).getD
      (DynamicBloom.mk_new 16 (1/2))).active_idx = 0 :=
  ⟨rfl, rfl, rfl⟩

/-- C9 amended: no operation removes a partition (add keeps or appends
partitions and extend concatenates the two chains exactly), and the
active-index-is-last invariant holds after construction and is preserved by
add; extend, however, leaves active_idx unchanged, so after a merge the
invariant can fail (see the counterexample). -/
theorem C9_active_invariant {α : Type} (spooky : α → Nat) :
    (∀ (e : Nat) (fp : ℝ), (DynamicBloom.mk_new e fp).active_idx =
      (DynamicBloom.mk_new e fp).filters.length - 1) ∧
    (∀ (d : DynamicBloom) (x : α), d.active_idx = d.filters.length - 1 →
      0 < d.filters.length →
      (d.add spooky x).active_idx = (d.add spooky x).filters.length - 1 ∧
      d.filters.length ≤ (d.add spooky x).filters.length) ∧
    (∀ a b c : DynamicBloom, a.extend b = some c →
      c.filters = a.filters ++ b.filters ∧ c.active_idx = a.active_idx) := by
  refine ⟨fun e fp => rfl, ?_, ?_⟩
  · intro d x hinv hpos
    rw [add_eq_dynStep]
    rcases dynStep_cases d with hc | hc <;> rw [hc] <;>
      simp only [List.length_set, List.length_append, List.length_singleton]
    · exact ⟨hinv, Nat.le_refl _⟩
    · constructor
      · omega
      · omega
  · intro a b c h
    unfold DynamicBloom.extend at h
    split at h
    · cases h
      exact ⟨rfl, rfl⟩
    · cases h

/-- Witness for C9 (amended): the invariant is preserved by an add on a
fresh chain, and a successful extend of two fresh equal-capacity chains
concatenates their partition lists. -/
theorem C9_active_invariant_witness :
    (((DynamicBloom.mk_new 16 (1/2)).add (fun n : Nat => n) 0).active_idx =
      ((DynamicBloom.mk_new 16 (1/2)).add (fun n : Nat => n) 0).filters.length - 1) ∧
    ((⟨(DynamicBloom.mk_new 16 (1/2)).filters ++ (DynamicBloom.mk_new 16 (1/2)).filters,
        0, 16, 1/2, 0⟩ : DynamicBloom).filters =
      (DynamicBloom.mk_new 16 (1/2)).filters ++ (DynamicBloom.mk_new 16 (1/2)).filters) :=
  ⟨((C9_active_invariant (fun n : Nat => n)).2.1 (DynamicBloom.mk_new 16 (1/2)) 0
      rfl Nat.one_pos).1,
   ((C9_active_invariant (fun n : Nat => n)).2.2 (DynamicBloom.mk_new 16 (1/2))
      (DynamicBloom.mk_new 16 (1/2))
      ⟨(DynamicBloom.mk_new 16 (1/2)).filters ++ (DynamicBloom.mk_new 16 (1/2)).filters,
        0, 16, 1/2, 0⟩ rfl).1⟩

end Bloom

namespace Bloom

/-- The state of the repository test `test_retire_slices`: `AgeFilter::new(2,
4, 16)` (6 slices, all stamped at time 0) followed by four `add_slice`
calls at times 1, 2, 3, 4 — ten slices, `optimal_slices = 6`. -/
def ageC8state : AgeFilter :=
  AgeFilter.add_slice 4
    (AgeFilter.add_slice 3
      (AgeFilter.add_slice 2
        (AgeFilter.add_slice 1 (AgeFilter.mk_new 2 4 16 0) 16) 16) 16) 16

/-- C8 counterexample: with `optimal_slices = 6` and 10 slices all stale
(every slice timestamp is below the retirement instant 5), one
`retire_slices` call leaves 7 slices — not `optimal_slices` — because the
loop checks index `i - removed` but removes at index `i`, so later removals
miss.  The repository's own test asserts this 7. -/
theorem C8_counterexample :
    ageC8state.optimal_slices = 6 ∧
    ageC8state.num_slices = 10 ∧
    ageC8state.num_slices = ageC8state.slices.inner.length ∧
    (∀ sl ∈ ageC8state.slices.inner, sl.timestamp < 5) ∧
    (ageC8state.retire_slices 5).num_slices = 7 ∧
    (ageC8state.retire_slices 5).num_slices ≠ ageC8state.optimal_slices := by
  refine ⟨rfl, rfl, rfl, by decide, rfl, by decide⟩

/-- C8 amended: for a well-formed age filter whose length is at least
`optimal_slices`, one retirement invocation with every slice stale removes
only `min e (e / 2 + 1)` of the `e = num_slices - optimal_slices` excess
slices (so a single invocation returns to `optimal_slices` only when
e ≤ 2; repeated invocations are needed in general), and a retirement
invocation with no slice stale leaves the state unchanged (idempotence on
ineligible state). -/
theorem C8_retirement (ts : Nat) (f : AgeFilter)
    (hopt : 1 ≤ f.optimal_slices)
    (hnum : f.num_slices = f.slices.inner.length)
    (hge : f.optimal_slices ≤ f.num_slices) :
    ((∀ sl ∈ f.slices.inner, sl.timestamp < ts) →
      (f.retire_slices ts).num_slices =
        f.num_slices - min (f.num_slices - f.optimal_slices)
          ((f.num_slices - f.optimal_slices) / 2 + 1)) ∧
    ((∀ sl ∈ f.slices.inner, ts ≤ sl.timestamp) → f.retire_slices ts = f) :=
  ⟨fun hel => retire_slices_all_stale ts f hopt hnum hge hel,
   fun hel => retire_slices_none_stale ts f hnum hel⟩

/-- Witness for C8 (amended): the test state shrinks from 10 to
10 - min 4 3 = 7 slices, and a freshly built filter (timestamps 7, after
the retirement instant 5) is left exactly unchanged. -/
theorem C8_retirement_witness :
    (ageC8state.retire_slices 5).num_slices = 7 ∧
    (AgeFilter.mk_new 2 4 16 7).retire_slices 5 = AgeFilter.mk_new 2 4 16 7 := by
  constructor
  · have h := (C8_retirement 5 ageC8state (by decide) (by decide) (by decide)).1
      (by decide)
    rw [h]
    decide
  · exact (C8_retirement 5 (AgeFilter.mk_new 2 4 16 7) (by decide) (by decide)
      (by decide)).2 (by decide)

end Bloom
